import Mathlib

set_option maxHeartbeats 1000000
set_option maxRecDepth 2048

/-!
Shallow embedding of the storage/metadata engine in `lbrynet/core/Storage.py`
(class `MemoryStorage`) together with the helpers it uses from
`lbrynet/core/utils.py`.  Each sqlite table becomes a list of rows kept in
rowid (insertion) order; the `AUTOINCREMENT` counters become explicit `next_*`
fields.  Python exceptions become an `Except Err` result; statements already
committed before an exception are kept by threading the state explicitly
wherever the source catches exceptions mid-operation.
-/

namespace LbryStorage

/-- Exceptions that the modelled Python code can raise. -/
inductive Err where
  | assertionError (msg : String)
  | integrityError
  | keyError
  | indexError
  | valueError
  | duplicateStreamHashError (streamHash : String)
deriving Repr, DecidableEq

deriving instance DecidableEq for Except

/-! `STREAM_STATUS` constants from `Storage.py`. -/

namespace STREAM_STATUS

def RUNNING : String := "running"

def STOPPED : String := "stopped"

def FINISHED : String := "finished"

def PENDING : String := "pending"

end STREAM_STATUS

/-! `CLAIM_STATUS` constants from `Storage.py`. -/

namespace CLAIM_STATUS

def INIT : String := "INIT"

def PENDING : String := "PENDING"

def ACTIVE : String := "ACTIVE"

def INACTIVE : String := "INACTIVE"

def INVALID_METADATA : String := "INVALID_METADATA"

def MISSING_METADATA : String := "MISSING_METADATA"

end CLAIM_STATUS

/-- A row of the `blobs` table: `id INTEGER PRIMARY KEY AUTOINCREMENT,
blob_hash TEXT UNIQUE NOT NULL`. -/
structure BlobRow where
  id : Nat
  blob_hash : String
deriving Repr, DecidableEq

/-- A row of the `managed_blobs` table (its `id` references `blobs.id`). -/
structure ManagedBlobRow where
  id : Nat
  file_id : Option Nat
  stream_position : Option Nat
  iv : Option String
  blob_length : Option Nat
  last_verified_time : Option Int
  last_announced_time : Option Int
  next_announce_time : Option Int
deriving Repr, DecidableEq

/-- A row of the `files` table. -/
structure FileRow where
  id : Nat
  status : String
  blob_data_rate : Option Int
  stream_hash : Option String
  sd_blob_id : Option Nat
  decryption_key : Option String
  published_file_name : Option String
  claim_id : Option Nat
deriving Repr, DecidableEq

/-- A row of the `stream_terminators` table (its `id` references `files.id`). -/
structure StreamTerminatorRow where
  id : Nat
  blob_count : Nat
  iv : Option String
deriving Repr, DecidableEq

/-- A row of the `claims` table. -/
structure ClaimRow where
  id : Nat
  name : String
  status : String
  txid : String
  nout : Nat
  claim_transaction_id : Option String
  claim_hash : String
  sd_blob_id : Option Nat
  is_mine : Option Bool
deriving Repr, DecidableEq

/-- A row of the `winning_claims` table. -/
structure WinningClaimRow where
  id : Nat
  name : String
  claim_id : Nat
  last_checked : Int
deriving Repr, DecidableEq

/-- A row of the `metadata` table (its `id` references `claims.id`). -/
structure MetadataRow where
  id : Nat
  value : String
deriving Repr, DecidableEq

/-- The whole store: every table in rowid order plus the autoincrement
counters (sqlite `AUTOINCREMENT` hands out ids strictly larger than any id
ever used in the table, starting from 1). -/
structure DB where
  blobs : List BlobRow
  managed_blobs : List ManagedBlobRow
  files : List FileRow
  stream_terminators : List StreamTerminatorRow
  claims : List ClaimRow
  winning_claims : List WinningClaimRow
  metadata : List MetadataRow
  next_blob_id : Nat
  next_file_id : Nat
  next_claim_id : Nat
  next_winning_id : Nat
deriving Repr, DecidableEq

/-- The freshly created store right after `_open` ran the
`CREATE TABLE` statements: every table empty. -/
def emptyDB : DB :=
  { blobs := [], managed_blobs := [], files := [], stream_terminators := []
    claims := [], winning_claims := [], metadata := []
    next_blob_id := 1, next_file_id := 1, next_claim_id := 1, next_winning_id := 1 }

/-! ### Helpers from `lbrynet/core/utils.py` -/

/-- Value of a hexadecimal digit, as accepted by Python's `str.decode('hex')`. -/
def hexVal (c : Char) : Option Nat :=
  if '0' ≤ c ∧ c ≤ '9' then some (c.toNat - '0'.toNat)
  else if 'a' ≤ c ∧ c ≤ 'f' then some (c.toNat - 'a'.toNat + 10)
  else if 'A' ≤ c ∧ c ≤ 'F' then some (c.toNat - 'A'.toNat + 10)
  else none

/-- `txid.decode('hex')`: decode pairs of hex digits into bytes; `none`
models the `TypeError` Python raises on odd length or a non-hex digit. -/
def hexDecode : List Char → Option (List Nat)
  | [] => some []
  | [_] => none
  | c1 :: c2 :: rest => do
    let hi ← hexVal c1
    let lo ← hexVal c2
    let tail ← hexDecode rest
    some ((hi * 16 + lo) :: tail)

/-- The base58 alphabet used by the `base58` package. -/
def b58chars : List Char :=
  String.toList "123456789ABCDEFGHJKLMNPQRSTUVWXYZabcdefghijkmnopqrstuvwxyz"

/-- Base-58 digit expansion of a natural number, most significant digit
first (fuel-driven so that it reduces definitionally). -/
def natToB58Aux : Nat → Nat → List Char
  | 0, _ => []
  | _ + 1, 0 => []
  | fuel + 1, n + 1 =>
    natToB58Aux fuel ((n + 1) / 58) ++ [b58chars.getD ((n + 1) % 58) '1']

/-- Base-58 digit expansion of a natural number (empty for 0). -/
def natToB58 (n : Nat) : List Char :=
  natToB58Aux (n + 1) n

/-- A byte string read as a big-endian natural number. -/
def bytesToNat (bytes : List Nat) : Nat :=
  bytes.foldl (fun acc b => acc * 256 + b) 0

/-- `base58.b58encode`: each leading zero byte becomes `'1'`, the rest is the
base-58 expansion of the big-endian value. -/
def b58encode (bytes : List Nat) : String :=
  String.mk (List.replicate (bytes.takeWhile (· == 0)).length '1'
    ++ natToB58 (bytesToNat bytes))

/-- `utils.condensed_claim_out(txid, nout)`: base58 of the hex-decoded txid
with the nout byte appended.  `none` models the exception raised on a
non-hex txid or a `nout` that does not fit `chr`. -/
def condensed_claim_out (txid : String) (nout : Nat) : Option String := do
  let bytes ← hexDecode txid.toList
  if nout ≥ 256 then none
  else some (b58encode (bytes ++ [nout]))

/-- Python truthiness of an optional text value: `None` and `""` are falsy. -/
def truthyHash : Option String → Bool
  | none => false
  | some s => !s.isEmpty

/-! ### Blob registry (`MemoryStorage.get_blob_row_id`) -/

/-- The all-`NULL` placeholder row that `get_blob_row_id` inserts into
`managed_blobs` for a freshly registered blob id. -/
def blobPlaceholder (i : Nat) : ManagedBlobRow :=
  { id := i, file_id := none, stream_position := none, iv := none, blob_length := none
    last_verified_time := none, last_announced_time := none, next_announce_time := none }

/-- `SELECT ... FROM blobs WHERE blob_hash=?`: first row whose hash equals
the bound value (a `NULL` bind matches nothing). -/
def findBlobByHash (blobs : List BlobRow) (blob_hash : Option String) : Option BlobRow :=
  blobs.find? (fun b => blob_hash == some b.blob_hash)

/-- `get_blob_row_id`: look the hash up in `blobs`; when absent and the hash
is truthy, insert a `blobs` row, look it up again, and insert the placeholder
`managed_blobs` row for the new id.  Returns the id (`none` models Python's
`False`) together with the updated store. -/
def get_blob_row_id (db : DB) (blob_hash : Option String) : Option Nat × DB :=
  match findBlobByHash db.blobs blob_hash, blob_hash with
  | some b, _ => (some b.id, db)
  | none, none => (none, db)
  | none, some s =>
    if s.isEmpty then (none, db)
    else
      let db1 : DB := { db with
        blobs := db.blobs ++ [{ id := db.next_blob_id, blob_hash := s }]
        next_blob_id := db.next_blob_id + 1 }
      let blob_id2 := (findBlobByHash db1.blobs (some s)).map (·.id)
      (blob_id2, { db1 with
        managed_blobs := db1.managed_blobs ++ [blobPlaceholder (blob_id2.getD 0)] })

/-! ### Stream index -/

/-- `SELECT ... FROM files WHERE stream_hash=?`. -/
def findFileByStreamHash (files : List FileRow) (stream_hash : String) : Option FileRow :=
  files.find? (fun f => f.stream_hash == some stream_hash)

/-- `get_file_row_id`: id of the `files` row with the given stream hash
(`none` models Python's `False`). -/
def get_file_row_id (db : DB) (stream_hash : String) : Option Nat :=
  (findFileByStreamHash db.files stream_hash).map (·.id)

/-- `store_stream`: insert a new PENDING `files` row; the `UNIQUE` constraint
on `stream_hash` turns a duplicate into `DuplicateStreamHashError`.  (The
`file_name` argument is accepted but never stored, exactly as in the
source.) -/
def store_stream (db : DB) (stream_hash : String) (file_name : String)
    (decryption_key : String) (published_file_name : String) : Except Err DB :=
  if db.files.any (fun f => f.stream_hash == some stream_hash) then
    throw (Err.duplicateStreamHashError stream_hash)
  else
    let _ := file_name
    let row : FileRow :=
      { id := db.next_file_id, status := STREAM_STATUS.PENDING, blob_data_rate := none
        stream_hash := some stream_hash, sd_blob_id := none
        decryption_key := some decryption_key
        published_file_name := some published_file_name, claim_id := none }
    Except.ok { db with files := db.files ++ [row], next_file_id := db.next_file_id + 1 }

/-- `get_count_for_stream`: number of `managed_blobs` rows owned by the
stream's file row (a missing file binds Python `False`, i.e. sql `0`). -/
def get_count_for_stream (db : DB) (stream_hash : String) : Nat :=
  let file_id := get_file_row_id db stream_hash
  (db.managed_blobs.filter (fun mb => mb.file_id == some (file_id.getD 0))).length

/-- `SELECT blob_count, iv FROM stream_terminators WHERE id=?`. -/
def findTerminatorById (ts : List StreamTerminatorRow) (i : Nat) : Option StreamTerminatorRow :=
  ts.find? (fun t => t.id == i)

/-- `get_stream_terminator`: the `(blob_count, iv)` of the stream's
terminator row, `none` models Python's `False`. -/
def get_stream_terminator (db : DB) (file_id : Option Nat) : Option (Nat × Option String) :=
  (findTerminatorById db.stream_terminators (file_id.getD 0)).map
    (fun t => (t.blob_count, t.iv))

/-- `add_stream_terminator`: insert the terminator row unless one already
exists for the file (later attempts are no-ops). -/
def add_stream_terminator (db : DB) (file_id : Option Nat) (length : Nat)
    (iv : Option String) : DB :=
  match get_stream_terminator db file_id with
  | some _ => db
  | none => { db with stream_terminators := db.stream_terminators ++
      [{ id := file_id.getD 0, blob_count := length, iv := iv }] }

/-- One element of the `blobs` argument of `add_blobs_to_stream` (the
`CryptBlobInfo`-like objects with `blob_hash`, `blob_num`, `iv`, `length`). -/
structure StreamBlobInfo where
  blob_hash : Option String
  blob_num : Nat
  iv : Option String
  length : Nat
deriving Repr, DecidableEq

/-- The `UPDATE managed_blobs SET file_id=?, stream_position=?, iv=?,
blob_length=? WHERE id=?` statement. -/
def updateManagedBlob (db : DB) (file_id : Option Nat) (blob : StreamBlobInfo)
    (blob_id : Nat) : DB :=
  let upd : ManagedBlobRow → ManagedBlobRow := fun mb =>
    { mb with
      file_id := some (file_id.getD 0), stream_position := some blob.blob_num
      iv := blob.iv, blob_length := some blob.length }
  { db with managed_blobs := db.managed_blobs.map (fun mb =>
      if mb.id == blob_id then upd mb else mb) }

/-- Loop body of `add_blobs_to_stream`: the terminator marker (null hash and
zero length) goes to `add_stream_terminator`; any other piece is registered
through the blob registry and its managed row updated. -/
def addBlobStep (file_id : Option Nat) (db : DB) (blob : StreamBlobInfo) : DB :=
  if blob.blob_hash == none && blob.length == 0 then
    add_stream_terminator db file_id blob.blob_num blob.iv
  else
    let (blob_id, db) := get_blob_row_id db blob.blob_hash
    updateManagedBlob db file_id blob (blob_id.getD 0)

/-- `add_blobs_to_stream`. -/
def add_blobs_to_stream (db : DB) (stream_hash : String)
    (blobs : List StreamBlobInfo) : DB :=
  let file_id := get_file_row_id db stream_hash
  blobs.foldl (addBlobStep file_id) db

/-- One entry of the `get_blobs_for_stream` result:
`(blob_hash, stream_position, iv, blob_length)`. -/
structure BlobInfo where
  hash : Option String
  pos : Option Nat
  iv : Option String
  len : Option Nat
deriving Repr, DecidableEq

/-- `SELECT ... FROM managed_blobs WHERE file_id=? AND stream_position=?`. -/
def findManagedAt (mbs : List ManagedBlobRow) (fidv : Nat) (n : Nat) : Option ManagedBlobRow :=
  mbs.find? (fun mb => mb.file_id == some fidv && mb.stream_position == some n)

/-- `SELECT blob_hash FROM blobs WHERE id=?`. -/
def findBlobById (blobs : List BlobRow) (i : Nat) : Option BlobRow :=
  blobs.find? (fun b => b.id == i)

/-- The `for n in range(blob_count)` loop of `get_blobs_for_stream`: fetch
the managed row of the stream at each position, skipping missing positions,
and resolve its blob hash (`IndexError` if the `blobs` row is gone). -/
def blobsForStreamLoop (db : DB) (fidv : Nat) : List Nat → Except Err (List BlobInfo)
  | [] => Except.ok []
  | n :: ns =>
    match findManagedAt db.managed_blobs fidv n with
    | none => blobsForStreamLoop db fidv ns
    | some mb =>
      match findBlobById db.blobs mb.id with
      | none => throw Err.indexError
      | some b =>
        match blobsForStreamLoop db fidv ns with
        | Except.error e => Except.error e
        | Except.ok rest =>
          Except.ok ({ hash := some b.blob_hash, pos := mb.stream_position,
                       iv := mb.iv, len := mb.blob_length } :: rest)

/-- `get_blobs_for_stream`: count the stream's managed rows, fetch positions
`0..count-1` in order, then append the terminator (if any) as a synthetic
final entry with null hash, its stored `blob_count` as position, and zero
length. -/
def get_blobs_for_stream (db : DB) (stream_hash : String) : Except Err (List BlobInfo) :=
  let blob_count := get_count_for_stream db stream_hash
  let file_id := get_file_row_id db stream_hash
  match blobsForStreamLoop db (file_id.getD 0) (List.range blob_count) with
  | Except.error e => Except.error e
  | Except.ok blob_infos =>
    match get_stream_terminator db file_id with
    | none => Except.ok blob_infos
    | some (bc, iv) =>
      Except.ok (blob_infos ++ [{ hash := none, pos := some bc, iv := iv, len := some 0 }])

/-! ### Announce scheduler -/

/-- The `next_announce_time<?` comparison of the announce query: a `NULL`
deadline never compares true. -/
def announceDue (deadline : Option Int) (timestamp : Int) : Bool :=
  match deadline with
  | none => false
  | some d => d < timestamp

/-- `get_blobs_to_announce`: hashes of `blobs` rows joined to a
`managed_blobs` row with the same id whose deadline is strictly before the
current timestamp (taken here as the argument, the source reads
`int(utils.time())`); the hash itself must be non-null, which the schema
already guarantees. -/
def get_blobs_to_announce (db : DB) (timestamp : Int) : List String :=
  db.blobs.foldr (fun b acc =>
    ((db.managed_blobs.filter (fun mb =>
        mb.id == b.id && announceDue mb.next_announce_time timestamp)).map
      (fun _ => b.blob_hash)) ++ acc) []

/-- `update_next_blob_announce`: for each hash, resolve (and possibly
register) its blob id, then set that managed row's deadline. -/
def update_next_blob_announce (db : DB) (blob_hashes : List (Option String))
    (next_announce_time : Int) : DB :=
  blob_hashes.foldl (fun db h =>
    let (id, db) := get_blob_row_id db h
    { db with managed_blobs := db.managed_blobs.map (fun mb =>
        if mb.id == id.getD 0 then { mb with next_announce_time := some next_announce_time }
        else mb) }) db

/-! ### Claim lifecycle -/

/-- `SELECT ... FROM claims WHERE claim_hash=?`. -/
def findClaimByHash (claims : List ClaimRow) (claim_hash : String) : Option ClaimRow :=
  claims.find? (fun c => c.claim_hash == claim_hash)

/-- `get_claim_row_id` (`none` models Python's `False`). -/
def get_claim_row_id (db : DB) (claim_hash : String) : Option Nat :=
  (findClaimByHash db.claims claim_hash).map (·.id)

/-- `add_claim`: derive the claim hash from `(txid, nout)`, assert it is
unseen, and insert an `INIT` row.  The insert statement has one placeholder
fewer than the column list, so `is_mine` lands in the `sd_blob_id` column
(as sqlite integer 0/1) and the `is_mine` column gets `NULL`, exactly as the
source does. -/
def add_claim (db : DB) (name : String) (txid : String) (nout : Nat)
    (claim_id : Option String) (is_mine : Bool) : Except Err DB :=
  match condensed_claim_out txid nout with
  | none => throw Err.valueError
  | some claim_hash =>
  match get_claim_row_id db claim_hash with
  | some _ => throw (Err.assertionError "Claim already known")
  | none =>
    let row : ClaimRow :=
      { id := db.next_claim_id, name := name, status := CLAIM_STATUS.INIT
        txid := txid, nout := nout, claim_transaction_id := claim_id
        claim_hash := claim_hash, sd_blob_id := some (if is_mine then 1 else 0)
        is_mine := none }
    Except.ok { db with claims := db.claims ++ [row]
                        next_claim_id := db.next_claim_id + 1 }

/-- `UPDATE claims SET status=? WHERE id=?`. -/
def setClaimStatusById (claims : List ClaimRow) (row_id : Nat) (status : String) :
    List ClaimRow :=
  claims.map (fun c => if c.id == row_id then { c with status := status } else c)

/-- `update_claim_status`: assert the claim exists, then set its status. -/
def update_claim_status (db : DB) (claim_hash : String) (status : String) :
    Except Err DB :=
  match get_claim_row_id db claim_hash with
  | none => throw (Err.assertionError "No claim to update")
  | some row_id =>
    Except.ok { db with claims := setClaimStatusById db.claims row_id status }

/-- `SELECT ... FROM claims WHERE id=?`. -/
def findClaimById (claims : List ClaimRow) (i : Nat) : Option ClaimRow :=
  claims.find? (fun c => c.id == i)

/-- `get_claim_status`. -/
def get_claim_status (db : DB) (claim_hash : String) : Option String :=
  match get_claim_row_id db claim_hash with
  | none => none
  | some row_id => (findClaimById db.claims row_id).map (·.status)

/-- Upsert of the `winning_claims` row for `name` inside `set_winning_claim`:
`UPDATE` when a row for the name exists, `INSERT` otherwise; either statement
aborts with `IntegrityError` when it would leave two rows sharing a `name` or
a `claim_id` (the table's `UNIQUE` constraints). -/
def upsertWinningClaim (db : DB) (name : String) (id : Nat) (now : Int) : Except Err DB :=
  if (db.winning_claims.filter (fun w => w.name == name)).isEmpty then
    if db.winning_claims.any (fun w => w.claim_id == id) then
      throw Err.integrityError
    else
      Except.ok { db with
        winning_claims := db.winning_claims ++
          [{ id := db.next_winning_id, name := name, claim_id := id, last_checked := now }]
        next_winning_id := db.next_winning_id + 1 }
  else
    if 2 ≤ (db.winning_claims.filter (fun w => w.name == name)).length
        ∨ db.winning_claims.any (fun w => !(w.name == name) && w.claim_id == id) then
      throw Err.integrityError
    else
      Except.ok { db with winning_claims := db.winning_claims.map (fun w =>
        if w.name == name then { w with claim_id := id, last_checked := now } else w) }

/-- The deactivation loop of `set_winning_claim`: every claim currently
`ACTIVE` under the name is updated to `INACTIVE`, one `UPDATE ... WHERE id=?`
per row. -/
def deactivateActiveClaims (db : DB) (name : String) : DB :=
  let inactive_claims := (db.claims.filter (fun c =>
    c.name == name && c.status == CLAIM_STATUS.ACTIVE)).map (·.id)
  inactive_claims.foldl (fun d i =>
    { d with claims := setClaimStatusById d.claims i CLAIM_STATUS.INACTIVE }) db

/-- `set_winning_claim(name, claim_outpoint)`: look the claim id up by the
condensed outpoint (an unknown claim raises `IndexError`), upsert the
`winning_claims` row for the name, set every `ACTIVE` claim under the name
to `INACTIVE`, then set the elected claim `ACTIVE`. -/
def set_winning_claim (db : DB) (name : String) (txid : String) (nout : Nat)
    (now : Int) : Except Err DB :=
  match condensed_claim_out txid nout with
  | none => throw Err.valueError
  | some claim_hash =>
  match findClaimByHash db.claims claim_hash with
  | none => throw Err.indexError
  | some c =>
  match upsertWinningClaim db name c.id now with
  | Except.error e => Except.error e
  | Except.ok db =>
    let db := deactivateActiveClaims db name
    update_claim_status db claim_hash CLAIM_STATUS.ACTIVE

/-! ### Metadata attachment -/

/-- A metadata payload (a Python dict).  `has_sources` says whether the
`['sources']['lbry_sd_hash']` path exists (a missing key raises `KeyError`);
`lbry_sd_hash` is the value found there (`none` models JSON null); `value`
stands for `utils.metadata_to_b58(metadata)`, the stored encoding, whose
serialization details no claim depends on. -/
structure MetadataPayload where
  has_sources : Bool
  lbry_sd_hash : Option String
  value : String
deriving Repr, DecidableEq

/-- `utils.get_sd_hash`: `metadata_dict['sources']['lbry_sd_hash']`. -/
def get_sd_hash (md : MetadataPayload) : Except Err (Option String) :=
  if md.has_sources then Except.ok md.lbry_sd_hash else Except.error Err.keyError

/-- `add_blob_hash`: resolve the hash through `get_blob_row_id` (which
already inserts truthy unseen hashes); if still unresolved, run the plain
insert — which violates `NOT NULL` for a null hash and otherwise inserts an
empty-string hash row — and look the id up again. -/
def add_blob_hash (db : DB) (blob_hash : Option String) : Except Err (Nat × DB) :=
  let (blob_id, db) := get_blob_row_id db blob_hash
  match blob_id with
  | some i => Except.ok (i, db)
  | none =>
    match blob_hash with
    | none => throw Err.integrityError
    | some s =>
      let db1 : DB := { db with
        blobs := db.blobs ++ [{ id := db.next_blob_id, blob_hash := s }]
        next_blob_id := db.next_blob_id + 1 }
      let (blob_id2, db2) := get_blob_row_id db1 (some s)
      Except.ok (blob_id2.getD 0, db2)

/-- `add_metadata_to_claim`: everything up to the `metadata` insert runs
under `try`; a failure there keeps the statements already committed and
switches the resulting status to `INVALID_METADATA`.  The final
`update_claim_status` runs outside the `try` and is the only raise site
(unknown claim). -/
def add_metadata_to_claim (db : DB) (claim_hash : String) (md : MetadataPayload) :
    Except Err (String × DB) :=
  let claim_row_id := get_claim_row_id db claim_hash
  let cridv := claim_row_id.getD 0
  let (status_code, db) :=
    match get_sd_hash md with
    | Except.error _ => (CLAIM_STATUS.INVALID_METADATA, db)
    | Except.ok sd_hash =>
      match add_blob_hash db sd_hash with
      | Except.error _ => (CLAIM_STATUS.INVALID_METADATA, db)
      | Except.ok (sd_blob_id, db) =>
        let db : DB := { db with claims := db.claims.map (fun c =>
          if c.id == cridv then { c with sd_blob_id := some sd_blob_id } else c) }
        if db.metadata.any (fun m => m.id == cridv) then
          (CLAIM_STATUS.INVALID_METADATA, db)
        else
          (CLAIM_STATUS.PENDING,
            { db with metadata := db.metadata ++ [{ id := cridv, value := md.value }] })
  match update_claim_status db claim_hash status_code with
  | Except.error e => Except.error e
  | Except.ok db => Except.ok (status_code, db)

/-! ## Helper lemmas -/

/-- In a list of blob rows with pairwise distinct hashes, the rows carrying a
hash that does occur form a singleton. -/
theorem filter_hash_singleton {l : List BlobRow} {s : String}
    (hp : l.Pairwise (fun a b => a.blob_hash ≠ b.blob_hash))
    {x : BlobRow} (hx : x ∈ l) (hs : x.blob_hash = s) :
    (l.filter (fun b => b.blob_hash == s)).length = 1 := by
  induction l with
  | nil => cases hx
  | cons y ys ih =>
    rcases List.pairwise_cons.mp hp with ⟨hy, hys⟩
    rcases List.mem_cons.mp hx with rfl | hmem
    · have hnil : ys.filter (fun b => b.blob_hash == s) = [] := by
        apply List.filter_eq_nil_iff.mpr
        intro b hb
        simp only [beq_iff_eq]
        exact fun hEq => hy b hb (hs.trans hEq.symm)
      simp [List.filter_cons, hs, hnil]
    · have hyne : y.blob_hash ≠ s := fun hEq => hy x hmem (hEq.trans hs.symm)
      simp only [List.filter_cons]
      rw [if_neg (by simp [hyne])]
      exact ih hys hmem

/-- `findBlobByHash` distributes over list append. -/
theorem findBlobByHash_append (l1 l2 : List BlobRow) (h : Option String) :
    findBlobByHash (l1 ++ l2) h = (findBlobByHash l1 h).or (findBlobByHash l2 h) :=
  List.find?_append

/-- A fresh row is found by its own hash. -/
theorem findBlobByHash_singleton (i : Nat) (s : String) :
    findBlobByHash [{ id := i, blob_hash := s }] (some s) = some { id := i, blob_hash := s } := by
  simp [findBlobByHash]

/-! ## C1: blob registry idempotence -/

/-- C1: for a non-empty hash, `get_blob_row_id` returns the same identity on
two successive calls, does not change the store on the second call, and
leaves exactly one `blobs` row carrying that hash; for a null or empty hash
it never creates a `blobs` row. -/
theorem get_blob_row_id_idempotent (db : DB) (h : Option String)
    (hwf : db.blobs.Pairwise (fun a b => a.blob_hash ≠ b.blob_hash)) :
    (∀ s, h = some s → truthyHash h = true →
      ∃ i, (get_blob_row_id db h).1 = some i ∧
        (get_blob_row_id (get_blob_row_id db h).2 h).1 = some i ∧
        (get_blob_row_id (get_blob_row_id db h).2 h).2 = (get_blob_row_id db h).2 ∧
        ((get_blob_row_id db h).2.blobs.filter (fun b => b.blob_hash == s)).length = 1) ∧
    (truthyHash h = false → (get_blob_row_id db h).2 = db) := by
  constructor
  · rintro s rfl htr
    have hempty : s.isEmpty = false := by
      simpa [truthyHash] using htr
    match hfind : findBlobByHash db.blobs (some s) with
    | some b =>
      have hb_mem := List.mem_of_find?_eq_some hfind
      have hb_eq : b.blob_hash = s := by
        have hps := List.find?_some hfind
        simp only [beq_iff_eq, Option.some.injEq] at hps
        exact hps.symm
      have hstep : get_blob_row_id db (some s) = (some b.id, db) := by
        simp only [get_blob_row_id, hfind]
      refine ⟨b.id, ?_, ?_, ?_, ?_⟩ <;> rw [hstep]
      · rw [hstep]
      · rw [hstep]
      · exact filter_hash_singleton hwf hb_mem hb_eq
    | none =>
      have hnotany : ∀ b ∈ db.blobs, ¬ (some s == some b.blob_hash) = true :=
        List.find?_eq_none.mp hfind
      have hfind2 : findBlobByHash
          (db.blobs ++ [({ id := db.next_blob_id, blob_hash := s } : BlobRow)]) (some s) =
          some { id := db.next_blob_id, blob_hash := s } := by
        rw [findBlobByHash_append, hfind, findBlobByHash_singleton]
        rfl
      have hstep1 : get_blob_row_id db (some s) =
          (some db.next_blob_id,
            { db with
              blobs := db.blobs ++ [{ id := db.next_blob_id, blob_hash := s }]
              managed_blobs := db.managed_blobs ++ [blobPlaceholder db.next_blob_id]
              next_blob_id := db.next_blob_id + 1 }) := by
        simp only [get_blob_row_id, hfind, hempty, Bool.false_eq_true, if_false, hfind2,
          Option.map_some', Option.getD_some]
      have hfind2' : findBlobByHash
          ({ db with
              blobs := db.blobs ++ [{ id := db.next_blob_id, blob_hash := s }]
              managed_blobs := db.managed_blobs ++ [blobPlaceholder db.next_blob_id]
              next_blob_id := db.next_blob_id + 1 } : DB).blobs (some s) =
          some { id := db.next_blob_id, blob_hash := s } := hfind2
      have hstep2 : get_blob_row_id
          ({ db with
              blobs := db.blobs ++ [{ id := db.next_blob_id, blob_hash := s }]
              managed_blobs := db.managed_blobs ++ [blobPlaceholder db.next_blob_id]
              next_blob_id := db.next_blob_id + 1 } : DB) (some s) =
          (some db.next_blob_id,
            { db with
              blobs := db.blobs ++ [{ id := db.next_blob_id, blob_hash := s }]
              managed_blobs := db.managed_blobs ++ [blobPlaceholder db.next_blob_id]
              next_blob_id := db.next_blob_id + 1 }) := by
        simp only [get_blob_row_id, hfind2']
      refine ⟨db.next_blob_id, ?_, ?_, ?_, ?_⟩
      · rw [hstep1]
      · rw [hstep1, hstep2]
      · rw [hstep1, hstep2]
      · rw [hstep1]
        show ((db.blobs ++ [({ id := db.next_blob_id, blob_hash := s } : BlobRow)]).filter
          (fun b => b.blob_hash == s)).length = 1
        rw [List.filter_append]
        have h1 : db.blobs.filter (fun b => b.blob_hash == s) = [] := by
          apply List.filter_eq_nil_iff.mpr
          intro b hb
          have := hnotany b hb
          simp only [beq_iff_eq] at this ⊢
          exact fun hEq => this (congrArg some hEq.symm)
        simp [h1]
  · intro hfalsy
    match h with
    | none =>
      match hfind : findBlobByHash db.blobs none with
      | some b =>
        exact absurd (List.find?_some hfind) (by simp)
      | none => simp only [get_blob_row_id, hfind]
    | some s =>
      have hempty : s.isEmpty = true := by
        simpa [truthyHash] using hfalsy
      match hfind : findBlobByHash db.blobs (some s) with
      | some b => simp only [get_blob_row_id, hfind]
      | none => simp only [get_blob_row_id, hfind, hempty, if_true]

/-- Witness for C1 at a concrete store and hash. -/
theorem get_blob_row_id_idempotent_witness :
    (emptyDB.blobs.Pairwise (fun a b => a.blob_hash ≠ b.blob_hash)) ∧
    ((∀ s, (some "aa" : Option String) = some s → truthyHash (some "aa") = true →
      ∃ i, (get_blob_row_id emptyDB (some "aa")).1 = some i ∧
        (get_blob_row_id (get_blob_row_id emptyDB (some "aa")).2 (some "aa")).1 = some i ∧
        (get_blob_row_id (get_blob_row_id emptyDB (some "aa")).2 (some "aa")).2 =
          (get_blob_row_id emptyDB (some "aa")).2 ∧
        ((get_blob_row_id emptyDB (some "aa")).2.blobs.filter
          (fun b => b.blob_hash == s)).length = 1) ∧
    (truthyHash (some "aa") = false → (get_blob_row_id emptyDB (some "aa")).2 = emptyDB)) :=
  ⟨List.Pairwise.nil,
    get_blob_row_id_idempotent emptyDB (some "aa") List.Pairwise.nil⟩

/-! ## C6: duplicate stream hash -/

/-- C6: creating a stream whose hash is already stored fails with
`DuplicateStreamHashError`.  In this state-passing embedding an error result
carries no successor state, so the failing call commits nothing and the
previously stored row is untouched. -/
theorem store_stream_duplicate_error (db : DB) (sh fn key pfn : String)
    (hdup : ∃ f ∈ db.files, f.stream_hash = some sh) :
    store_stream db sh fn key pfn = Except.error (Err.duplicateStreamHashError sh) := by
  obtain ⟨f, hf, hfs⟩ := hdup
  have hany : db.files.any (fun f => f.stream_hash == some sh) = true :=
    List.any_eq_true.mpr ⟨f, hf, by simp [hfs]⟩
  simp only [store_stream, hany, if_true]
  rfl

/-- A store already holding a stream row for hash `"bb"`. -/
def dupStreamDB : DB := { emptyDB with
  files := [{ id := 1, status := STREAM_STATUS.PENDING, blob_data_rate := none
              stream_hash := some "bb", sd_blob_id := none, decryption_key := some "k"
              published_file_name := some "p", claim_id := none }]
  next_file_id := 2 }

/-- Witness for C6 at a concrete store. -/
theorem store_stream_duplicate_error_witness :
    (∃ f ∈ dupStreamDB.files, f.stream_hash = some "bb") ∧
    store_stream dupStreamDB "bb" "movie.mp4" "key" "sug" =
      Except.error (Err.duplicateStreamHashError "bb") :=
  ⟨⟨{ id := 1, status := STREAM_STATUS.PENDING, blob_data_rate := none
      stream_hash := some "bb", sd_blob_id := none, decryption_key := some "k"
      published_file_name := some "p", claim_id := none },
    by simp [dupStreamDB], rfl⟩,
   store_stream_duplicate_error dupStreamDB "bb" "movie.mp4" "key" "sug"
    ⟨{ id := 1, status := STREAM_STATUS.PENDING, blob_data_rate := none
       stream_hash := some "bb", sd_blob_id := none, decryption_key := some "k"
       published_file_name := some "p", claim_id := none },
     by simp [dupStreamDB], rfl⟩⟩

/-! ## C5: observing an already-known claim -/

/-- Counterexample to C5 as stated: re-observing the claim for outpoint
`("aa", 0)` raises the `Claim already known` assertion instead of being an
idempotent no-op. -/
theorem add_claim_twice_raises :
    (add_claim emptyDB "cat" "aa" 0 none false).bind
      (fun db => add_claim db "cat" "aa" 0 none false) =
      Except.error (Err.assertionError "Claim already known") := by
  decide

/-- C5 (amended): calling `add_claim` again for a claim whose derived hash is
already stored raises the `Claim already known` assertion; the failing call
commits nothing, so no row is inserted and the existing row is unchanged. -/
theorem add_claim_known_raises (db : DB) (name txid : String) (nout : Nat)
    (claim_id : Option String) (is_mine : Bool) (h : String) (rid : Nat)
    (hcond : condensed_claim_out txid nout = some h)
    (hknown : get_claim_row_id db h = some rid) :
    add_claim db name txid nout claim_id is_mine =
      Except.error (Err.assertionError "Claim already known") := by
  simp only [add_claim, hcond, hknown]
  rfl

/-- The store after observing the claim for outpoint `("aa", 0)`. -/
def knownClaimDB : DB := (add_claim emptyDB "cat" "aa" 0 none false).toOption.getD emptyDB

/-- The derived hash of outpoint `("aa", 0)`. -/
def knownClaimHash : String := (condensed_claim_out "aa" 0).getD ""

/-- Witness for the amended C5 at a concrete store and outpoint. -/
theorem add_claim_known_raises_witness :
    condensed_claim_out "aa" 0 = some knownClaimHash ∧
    get_claim_row_id knownClaimDB knownClaimHash = some 1 ∧
    add_claim knownClaimDB "cat" "aa" 0 none false =
      Except.error (Err.assertionError "Claim already known") :=
  ⟨by decide, by decide,
   add_claim_known_raises knownClaimDB "cat" "aa" 0 none false knownClaimHash 1
     (by decide) (by decide)⟩

/-! ## C8: announce scheduling -/

/-- `announceDue` holds exactly on a stored deadline strictly before now. -/
theorem announceDue_iff (o : Option Int) (t : Int) :
    announceDue o t = true ↔ ∃ d, o = some d ∧ d < t := by
  cases o <;> simp [announceDue]

/-- Membership in the announce join, itemized per blob row. -/
theorem mem_announce_join (blobs : List BlobRow) (mbs : List ManagedBlobRow)
    (t : Int) (s : String) :
    s ∈ blobs.foldr (fun b acc =>
      ((mbs.filter (fun mb => mb.id == b.id && announceDue mb.next_announce_time t)).map
        (fun _ => b.blob_hash)) ++ acc) [] ↔
    ∃ b ∈ blobs, b.blob_hash = s ∧ ∃ mb ∈ mbs,
      mb.id = b.id ∧ ∃ d, mb.next_announce_time = some d ∧ d < t := by
  induction blobs with
  | nil => simp
  | cons b bs ih =>
    simp only [List.foldr_cons, List.mem_append, ih, List.mem_map, List.mem_filter,
      List.mem_cons, Bool.and_eq_true, beq_iff_eq, announceDue_iff]
    constructor
    · rintro (⟨mb, ⟨hmb, hid, hdue⟩, rfl⟩ | ⟨b', hb', hs, mb, hmb, hid, hdue⟩)
      · exact ⟨b, Or.inl rfl, rfl, mb, hmb, hid, hdue⟩
      · exact ⟨b', Or.inr hb', hs, mb, hmb, hid, hdue⟩
    · rintro ⟨b', hb' | hb', hs, mb, hmb, hid, hdue⟩
      · subst hb'
        exact Or.inl ⟨mb, ⟨hmb, hid, hdue⟩, hs⟩
      · exact Or.inr ⟨b', hb', hs, mb, hmb, hid, hdue⟩

/-- The hashes due for announcement are exactly those of blob rows whose
managed row carries a deadline strictly before now. -/
theorem mem_get_blobs_to_announce (db : DB) (t : Int) (s : String) :
    s ∈ get_blobs_to_announce db t ↔
    ∃ b ∈ db.blobs, b.blob_hash = s ∧ ∃ mb ∈ db.managed_blobs,
      mb.id = b.id ∧ ∃ d, mb.next_announce_time = some d ∧ d < t :=
  mem_announce_join db.blobs db.managed_blobs t s

/-- Two rows of a hash-unique blob table with the same hash coincide. -/
theorem blobRow_eq_of_hash_eq {l : List BlobRow}
    (hp : l.Pairwise (fun a b => a.blob_hash ≠ b.blob_hash))
    {a b : BlobRow} (ha : a ∈ l) (hb : b ∈ l) (hs : a.blob_hash = b.blob_hash) :
    a = b := by
  induction l with
  | nil => cases ha
  | cons x xs ih =>
    rcases List.pairwise_cons.mp hp with ⟨hx, hxs⟩
    rcases List.mem_cons.mp ha with rfl | ha' <;> rcases List.mem_cons.mp hb with rfl | hb'
    · rfl
    · exact absurd hs (hx b hb')
    · exact absurd hs.symm (hx a ha')
    · exact ih hxs ha' hb'

/-- C8: `get_blobs_to_announce` at time `t` returns exactly the hashes whose
stored deadline is strictly before `t`; in particular a hash rescheduled to
deadline `t` by `update_next_blob_announce` is excluded. -/
theorem get_blobs_to_announce_correct (db : DB) (t : Int) (h : String)
    (hwfb : db.blobs.Pairwise (fun a b => a.blob_hash ≠ b.blob_hash))
    (hwfm : ∀ mb ∈ db.managed_blobs, mb.id < db.next_blob_id)
    (htr : truthyHash (some h) = true) :
    (∀ s, s ∈ get_blobs_to_announce db t ↔
      ∃ b ∈ db.blobs, b.blob_hash = s ∧ ∃ mb ∈ db.managed_blobs,
        mb.id = b.id ∧ ∃ d, mb.next_announce_time = some d ∧ d < t) ∧
    h ∉ get_blobs_to_announce (update_next_blob_announce db [some h] t) t := by
  refine ⟨fun s => mem_get_blobs_to_announce db t s, ?_⟩
  have hempty : h.isEmpty = false := by
    simpa [truthyHash] using htr
  match hfind : findBlobByHash db.blobs (some h) with
  | some b =>
    have hb_mem := List.mem_of_find?_eq_some hfind
    have hb_hash : b.blob_hash = h := by
      have hps := List.find?_some hfind
      simp only [beq_iff_eq, Option.some.injEq] at hps
      exact hps.symm
    have hstep : get_blob_row_id db (some h) = (some b.id, db) := by
      simp only [get_blob_row_id, hfind]
    have hU : update_next_blob_announce db [some h] t =
        { db with managed_blobs := db.managed_blobs.map (fun mb =>
            if mb.id == b.id then
              { mb with next_announce_time := some t } else mb) } := by
      simp only [update_next_blob_announce, List.foldl, hstep, Option.getD_some]
    rw [hU]
    intro hmem
    rw [mem_get_blobs_to_announce] at hmem
    obtain ⟨b', hb', hbs', mb', hmb', hid', d, hnext', hdt⟩ := hmem
    have hbb : b' = b := blobRow_eq_of_hash_eq hwfb hb' hb_mem (hbs'.trans hb_hash.symm)
    obtain ⟨mb0, hmb0, hf⟩ := List.mem_map.mp hmb'
    by_cases hcase : (mb0.id == b.id) = true
    · rw [if_pos hcase] at hf
      rw [← hf] at hnext'
      simp only [Option.some.injEq] at hnext'
      omega
    · rw [if_neg hcase] at hf
      rw [← hf] at hid'
      rw [hbb] at hid'
      exact hcase (by simp [hid'])
  | none =>
    have hnotany : ∀ b ∈ db.blobs, ¬ (some h == some b.blob_hash) = true :=
      List.find?_eq_none.mp hfind
    have hfind2 : findBlobByHash
        (db.blobs ++ [({ id := db.next_blob_id, blob_hash := h } : BlobRow)]) (some h) =
        some { id := db.next_blob_id, blob_hash := h } := by
      rw [findBlobByHash_append, hfind, findBlobByHash_singleton]
      rfl
    have hstep : get_blob_row_id db (some h) =
        (some db.next_blob_id,
          { db with
            blobs := db.blobs ++ [{ id := db.next_blob_id, blob_hash := h }]
            managed_blobs := db.managed_blobs ++ [blobPlaceholder db.next_blob_id]
            next_blob_id := db.next_blob_id + 1 }) := by
      simp only [get_blob_row_id, hfind, hempty, Bool.false_eq_true, if_false, hfind2,
        Option.map_some', Option.getD_some]
    have hU : update_next_blob_announce db [some h] t =
        { db with
          blobs := db.blobs ++ [{ id := db.next_blob_id, blob_hash := h }]
          managed_blobs := (db.managed_blobs ++ [blobPlaceholder db.next_blob_id]).map
            (fun mb => if mb.id == db.next_blob_id then
              { mb with next_announce_time := some t } else mb)
          next_blob_id := db.next_blob_id + 1 } := by
      simp only [update_next_blob_announce, List.foldl, hstep, Option.getD_some]
    rw [hU]
    intro hmem
    rw [mem_get_blobs_to_announce] at hmem
    obtain ⟨b', hb', hbs', mb', hmb', hid', d, hnext', hdt⟩ := hmem
    simp only [List.mem_append, List.mem_singleton] at hb'
    rcases hb' with hb' | rfl
    · exact hnotany b' hb' (by simp [hbs'])
    · simp only [List.map_append, List.mem_append] at hmb'
      rcases hmb' with hmb' | hmb'
      · obtain ⟨mb0, hmb0, hf⟩ := List.mem_map.mp hmb'
        have hlt := hwfm mb0 hmb0
        have hne : (mb0.id == db.next_blob_id) = false := by
          simp only [beq_eq_false_iff_ne, ne_eq]
          omega
        rw [hne] at hf
        simp only [Bool.false_eq_true, if_false] at hf
        rw [← hf] at hid'
        simp only at hid'
        omega
      · simp only [List.map_cons, List.map_nil, List.mem_singleton, Option.getD_some,
          blobPlaceholder, beq_self_eq_true, if_true] at hmb'
        rw [hmb'] at hnext'
        simp only [Option.some.injEq] at hnext'
        omega

/-- A store with one registered blob, for the C8 witness. -/
def announceDB : DB := (get_blob_row_id emptyDB (some "h1")).2

/-- Witness for C8 at a concrete store, hash and time. -/
theorem get_blobs_to_announce_correct_witness :
    (announceDB.blobs.Pairwise (fun a b => a.blob_hash ≠ b.blob_hash)) ∧
    (∀ mb ∈ announceDB.managed_blobs, mb.id < announceDB.next_blob_id) ∧
    truthyHash (some "h1") = true ∧
    ((∀ s, s ∈ get_blobs_to_announce announceDB 5 ↔
      ∃ b ∈ announceDB.blobs, b.blob_hash = s ∧ ∃ mb ∈ announceDB.managed_blobs,
        mb.id = b.id ∧ ∃ d, mb.next_announce_time = some d ∧ d < 5) ∧
    "h1" ∉ get_blobs_to_announce (update_next_blob_announce announceDB [some "h1"] 5) 5) :=
  ⟨by decide, by decide, by decide,
   get_blobs_to_announce_correct announceDB 5 "h1" (by decide) (by decide) (by decide)⟩

/-! ## Stream reconstruction machinery (C2, C7) -/

/-- Resolving one managed row to its reconstruction entry. -/
def resolveInfo (db : DB) (mb : ManagedBlobRow) : Option BlobInfo :=
  (findBlobById db.blobs mb.id).map (fun b =>
    { hash := some b.blob_hash, pos := mb.stream_position, iv := mb.iv, len := mb.blob_length })

/-- The reconstruction loop collects, in position order, the resolvable entry
of every queried position, skipping positions with none. -/
theorem blobsForStreamLoop_eq (db : DB) (fidv : Nat) (ns : List Nat)
    (hres : ∀ n ∈ ns, ∀ mb, findManagedAt db.managed_blobs fidv n = some mb →
      (findBlobById db.blobs mb.id).isSome = true) :
    blobsForStreamLoop db fidv ns =
      Except.ok (ns.filterMap (fun n =>
        (findManagedAt db.managed_blobs fidv n).bind (resolveInfo db))) := by
  induction ns with
  | nil => rfl
  | cons n ns ih =>
    have ih' := ih (fun m hm => hres m (List.mem_cons_of_mem n hm))
    match hfm : findManagedAt db.managed_blobs fidv n with
    | none =>
      simp only [blobsForStreamLoop, hfm, ih', List.filterMap_cons, Option.none_bind]
    | some mb =>
      have hsome := hres n (List.mem_cons_self n ns) mb hfm
      match hfb : findBlobById db.blobs mb.id with
      | none => rw [hfb] at hsome; cases hsome
      | some b =>
        simp only [blobsForStreamLoop, hfm, hfb, ih', List.filterMap_cons, Option.some_bind,
          resolveInfo, Option.map_some']

/-- `find?` returns the unique element satisfying the predicate. -/
theorem find?_eq_of_unique {α : Type} {l : List α} {p : α → Bool} {a : α}
    (ha : a ∈ l) (hpa : p a = true) (huniq : ∀ x ∈ l, p x = true → x = a) :
    l.find? p = some a := by
  induction l with
  | nil => cases ha
  | cons x xs ih =>
    by_cases hx : p x = true
    · rw [List.find?_cons_of_pos _ hx]
      rw [huniq x (List.mem_cons_self x xs) hx]
    · rw [List.find?_cons_of_neg _ (by simp [hx])]
      rcases List.mem_cons.mp ha with rfl | ha'
      · exact absurd hpa hx
      · exact ih ha' (fun y hy => huniq y (List.mem_cons_of_mem x hy))

/-- Mapping each element to itself leaves the list unchanged. -/
theorem map_eq_self_of {α : Type} {l : List α} {f : α → α} (h : ∀ a ∈ l, f a = a) :
    l.map f = l := by
  induction l with
  | nil => rfl
  | cons x xs ih =>
    simp only [List.map_cons, h x (List.mem_cons_self x xs),
      ih (fun a ha => h a (List.mem_cons_of_mem x ha))]

/-- The managed row that `add_blobs_to_stream` leaves for a freshly
registered piece. -/
def mkManaged (fid i : Nat) (p : StreamBlobInfo) : ManagedBlobRow :=
  { id := i, file_id := some fid, stream_position := some p.blob_num, iv := p.iv
    blob_length := some p.length, last_verified_time := none, last_announced_time := none
    next_announce_time := none }

/-- One non-terminator step of the append loop on a fresh truthy hash:
register the blob, then fill in its managed row. -/
theorem addBlobStep_fresh (fid : Nat) (db : DB) (p : StreamBlobInfo)
    (htr : truthyHash p.blob_hash = true)
    (hfresh : findBlobByHash db.blobs p.blob_hash = none)
    (hinv : ∀ mb ∈ db.managed_blobs, mb.id < db.next_blob_id) :
    addBlobStep (some fid) db p = { db with
      blobs := db.blobs ++ [{ id := db.next_blob_id, blob_hash := p.blob_hash.getD "" }]
      managed_blobs := db.managed_blobs ++ [mkManaged fid db.next_blob_id p]
      next_blob_id := db.next_blob_id + 1 } := by
  match hp : p.blob_hash with
  | none => rw [hp] at htr; cases htr
  | some s =>
    have hempty : s.isEmpty = false := by
      rw [hp] at htr
      simpa [truthyHash] using htr
    rw [hp] at hfresh
    have hfind2 : findBlobByHash
        (db.blobs ++ [({ id := db.next_blob_id, blob_hash := s } : BlobRow)]) (some s) =
        some { id := db.next_blob_id, blob_hash := s } := by
      rw [findBlobByHash_append, hfresh, findBlobByHash_singleton]
      rfl
    have hstep : get_blob_row_id db (some s) =
        (some db.next_blob_id,
          { db with
            blobs := db.blobs ++ [{ id := db.next_blob_id, blob_hash := s }]
            managed_blobs := db.managed_blobs ++ [blobPlaceholder db.next_blob_id]
            next_blob_id := db.next_blob_id + 1 }) := by
      simp only [get_blob_row_id, hfresh, hempty, Bool.false_eq_true, if_false, hfind2,
        Option.map_some', Option.getD_some]
    have hcond : (p.blob_hash == none && p.length == 0) = false := by
      rw [hp]
      rfl
    rw [addBlobStep, hcond]
    simp only [Bool.false_eq_true, if_false, hp, hstep, Option.getD_some]
    rw [updateManagedBlob]
    congr 1
    rw [List.map_append]
    have h1 : (db.managed_blobs.map (fun mb =>
        if mb.id == db.next_blob_id then
          { mb with
            file_id := some ((some fid : Option Nat).getD 0)
            stream_position := some p.blob_num, iv := p.iv, blob_length := some p.length }
        else mb)) = db.managed_blobs := by
      apply map_eq_self_of
      intro mb hmb
      have := hinv mb hmb
      have hne : (mb.id == db.next_blob_id) = false := by
        simp only [beq_eq_false_iff_ne, ne_eq]
        omega
      rw [hne]
      simp
    rw [h1]
    congr 1
    simp [blobPlaceholder, mkManaged]

/-- The whole append loop over fresh, pairwise-distinct, truthy pieces:
each piece appends one `blobs` row and one filled managed row, in order. -/
theorem fold_addBlobStep_fresh (fid : Nat) (ps : List StreamBlobInfo) :
    ∀ db : DB,
    (∀ p ∈ ps, truthyHash p.blob_hash = true) →
    ps.Pairwise (fun a b => a.blob_hash ≠ b.blob_hash) →
    (∀ p ∈ ps, findBlobByHash db.blobs p.blob_hash = none) →
    (∀ mb ∈ db.managed_blobs, mb.id < db.next_blob_id) →
    ps.foldl (addBlobStep (some fid)) db = { db with
      blobs := db.blobs ++ (List.enumFrom db.next_blob_id ps).map
        (fun ip => { id := ip.1, blob_hash := ip.2.blob_hash.getD "" })
      managed_blobs := db.managed_blobs ++ (List.enumFrom db.next_blob_id ps).map
        (fun ip => mkManaged fid ip.1 ip.2)
      next_blob_id := db.next_blob_id + ps.length } := by
  induction ps with
  | nil =>
    intro db _ _ _ _
    simp
  | cons p ps ih =>
    intro db htr hdist hfresh hinv
    have hstep := addBlobStep_fresh fid db p (htr p (List.mem_cons_self p ps))
      (hfresh p (List.mem_cons_self p ps)) hinv
    have hdc := List.pairwise_cons.mp hdist
    have hfresh' : ∀ q ∈ ps, findBlobByHash
        (db.blobs ++ [({ id := db.next_blob_id, blob_hash := p.blob_hash.getD "" } : BlobRow)])
        q.blob_hash = none := by
      intro q hq
      rw [findBlobByHash_append, hfresh q (List.mem_cons_of_mem p hq)]
      have hne : q.blob_hash ≠ p.blob_hash := fun hEq => (hdc.1 q hq) hEq.symm
      match hq2 : q.blob_hash, hp2 : p.blob_hash with
      | none, _ =>
        simp [findBlobByHash]
      | some sq, some sp =>
        rw [hq2, hp2] at hne
        have hne2 : sq ≠ sp := fun hEq => hne (by rw [hEq])
        simp [findBlobByHash, hne2]
      | some sq, none =>
        have hc : truthyHash p.blob_hash = true := htr p (List.mem_cons_self p ps)
        rw [hp2] at hc
        cases hc
    have hinv' : ∀ mb ∈ db.managed_blobs ++ [mkManaged fid db.next_blob_id p],
        mb.id < db.next_blob_id + 1 := by
      intro mb hmb
      simp only [List.mem_append, List.mem_singleton] at hmb
      rcases hmb with hmb | rfl
      · have := hinv mb hmb
        omega
      · simp [mkManaged]
    rw [List.foldl_cons, hstep]
    rw [ih _ (fun q hq => htr q (List.mem_cons_of_mem p hq)) hdc.2 hfresh' hinv']
    simp only [List.enumFrom_cons, List.map_cons, List.length_cons, List.append_assoc,
      List.singleton_append, List.cons_append]
    congr 1
    omega

/-- In the managed rows built from consecutively enumerated pieces whose
`i`-th piece sits at position `off + i`, the row found at position `off + n`
is exactly the `n`-th one. -/
theorem findManagedAt_enum (fid : Nat) (ps : List StreamBlobInfo) :
    ∀ (k off : Nat),
    (∀ i (hi : i < ps.length), (ps.get ⟨i, hi⟩).blob_num = off + i) →
    ∀ n (hn : n < ps.length),
    findManagedAt ((List.enumFrom k ps).map (fun ip => mkManaged fid ip.1 ip.2)) fid (off + n) =
      some (mkManaged fid (k + n) (ps.get ⟨n, hn⟩)) := by
  induction ps with
  | nil =>
    intro k off _ n hn
    cases hn
  | cons p ps ih =>
    intro k off hpos n hn
    have hp0 : p.blob_num = off := by
      have := hpos 0 (by simp)
      simpa using this
    match n with
    | 0 =>
      simp only [findManagedAt, List.enumFrom_cons, List.map_cons]
      rw [List.find?_cons_of_pos _ (by simp [mkManaged, hp0])]
      simp [Nat.add_zero]
    | Nat.succ m =>
      have hm : m < ps.length := by
        simp only [List.length_cons] at hn
        omega
      have hpos' : ∀ i (hi : i < ps.length), (ps.get ⟨i, hi⟩).blob_num = (off + 1) + i := by
        intro i hi
        have := hpos (i + 1) (by simp only [List.length_cons]; omega)
        simpa [Nat.add_assoc, Nat.add_comm 1 i] using this
      have hq : off + (m + 1) = (off + 1) + m := by omega
      simp only [findManagedAt, List.enumFrom_cons, List.map_cons]
      rw [List.find?_cons_of_neg _ (by simp [mkManaged, hp0])]
      have := ih (k + 1) (off + 1) hpos' m hm
      rw [hq]
      rw [findManagedAt] at this
      rw [this]
      have hk : k + 1 + m = k + (m + 1) := by omega
      rw [hk]
      rfl

/-- In the blob rows built from consecutively enumerated pieces, the row
found by id `k + n` is exactly the `n`-th one. -/
theorem findBlobById_enum (ps : List StreamBlobInfo) :
    ∀ (k : Nat), ∀ n (hn : n < ps.length),
    findBlobById ((List.enumFrom k ps).map (fun ip =>
      ({ id := ip.1, blob_hash := ip.2.blob_hash.getD "" } : BlobRow))) (k + n) =
      some { id := k + n, blob_hash := (ps.get ⟨n, hn⟩).blob_hash.getD "" } := by
  induction ps with
  | nil =>
    intro k n hn
    cases hn
  | cons p ps ih =>
    intro k n hn
    match n with
    | 0 =>
      simp only [findBlobById, List.enumFrom_cons, List.map_cons]
      rw [List.find?_cons_of_pos _ (by simp)]
      simp
    | Nat.succ m =>
      have hm : m < ps.length := by
        simp only [List.length_cons] at hn
        omega
      simp only [findBlobById, List.enumFrom_cons, List.map_cons]
      rw [List.find?_cons_of_neg _ (by simp)]
      have := ih (k + 1) m hm
      rw [findBlobById] at this
      have hk : k + (m + 1) = (k + 1) + m := by omega
      rw [hk, this]
      rfl

/-- A truthy optional hash is `some` of its default-extracted value. -/
theorem truthy_some_getD {o : Option String} (h : truthyHash o = true) :
    some (o.getD "") = o := by
  cases o <;> simp_all [truthyHash]

/-- `filterMap` by an everywhere-`some` function is a `map`. -/
theorem filterMap_eq_map_of {α β : Type} {l : List α} {f : α → Option β} {g : α → β}
    (h : ∀ a ∈ l, f a = some (g a)) : l.filterMap f = l.map g := by
  induction l with
  | nil => rfl
  | cons x xs ih =>
    rw [List.filterMap_cons_some (h x (List.mem_cons_self x xs)), List.map_cons,
      ih (fun a ha => h a (List.mem_cons_of_mem x ha))]

/-- The `files` row created by `store_stream`. -/
def initialFileRow (sh key pfn : String) : FileRow :=
  { id := 1, status := STREAM_STATUS.PENDING, blob_data_rate := none
    stream_hash := some sh, sd_blob_id := none, decryption_key := some key
    published_file_name := some pfn, claim_id := none }

/-- The store after creating one stream in the empty store. -/
def initialStreamDB (sh key pfn : String) : DB :=
  { blobs := [], managed_blobs := [], files := [initialFileRow sh key pfn]
    stream_terminators := [], claims := [], winning_claims := [], metadata := []
    next_blob_id := 1, next_file_id := 2, next_claim_id := 1, next_winning_id := 1 }

/-- The store after additionally appending `pieces` and the terminator. -/
def builtStreamDB (sh key pfn : String) (pieces : List StreamBlobInfo)
    (term : StreamBlobInfo) : DB :=
  { blobs := (List.enumFrom 1 pieces).map
      (fun ip => { id := ip.1, blob_hash := ip.2.blob_hash.getD "" })
    managed_blobs := (List.enumFrom 1 pieces).map (fun ip => mkManaged 1 ip.1 ip.2)
    files := [initialFileRow sh key pfn]
    stream_terminators := [{ id := 1, blob_count := term.blob_num, iv := term.iv }]
    claims := [], winning_claims := [], metadata := []
    next_blob_id := 1 + pieces.length, next_file_id := 2, next_claim_id := 1
    next_winning_id := 1 }

/-- The reconstruction entry of a stored piece. -/
def pieceEntry (p : StreamBlobInfo) : BlobInfo :=
  { hash := p.blob_hash, pos := some p.blob_num, iv := p.iv, len := some p.length }

/-- Appending fresh ordered pieces plus the terminator to the just-created
stream yields exactly the built store. -/
theorem add_blobs_builds (sh key pfn : String) (pieces : List StreamBlobInfo)
    (term : StreamBlobInfo)
    (htr : ∀ p ∈ pieces, truthyHash p.blob_hash = true)
    (hdist : pieces.Pairwise (fun a b => a.blob_hash ≠ b.blob_hash))
    (hterm : term.blob_hash = none) (hlen : term.length = 0) :
    add_blobs_to_stream (initialStreamDB sh key pfn) sh (pieces ++ [term]) =
      builtStreamDB sh key pfn pieces term := by
  have hfid : get_file_row_id (initialStreamDB sh key pfn) sh = some 1 := by
    simp [get_file_row_id, findFileByStreamHash, initialStreamDB, initialFileRow]
  have hfold := fold_addBlobStep_fresh 1 pieces (initialStreamDB sh key pfn) htr hdist
    (fun p _ => rfl) (fun mb hmb => absurd hmb (List.not_mem_nil mb))
  rw [add_blobs_to_stream, hfid, List.foldl_append, hfold, List.foldl_cons, List.foldl_nil]
  have hcond : (term.blob_hash == none && term.length == 0) = true := by
    rw [hterm, hlen]
    rfl
  rw [addBlobStep, hcond]
  simp only [if_true, add_stream_terminator, get_stream_terminator, findTerminatorById,
    initialStreamDB, List.find?_nil, Option.map_none', Option.getD_some]
  rfl

/-- Reconstructing the built store returns every piece entry in position
order followed by the terminator entry. -/
theorem reconstruct_built (sh key pfn : String) (pieces : List StreamBlobInfo)
    (term : StreamBlobInfo)
    (hpos : ∀ i (hi : i < pieces.length), (pieces.get ⟨i, hi⟩).blob_num = i)
    (htr : ∀ p ∈ pieces, truthyHash p.blob_hash = true) :
    get_blobs_for_stream (builtStreamDB sh key pfn pieces term) sh =
      Except.ok (pieces.map pieceEntry ++
        [{ hash := none, pos := some term.blob_num, iv := term.iv, len := some 0 }]) := by
  have hfid : get_file_row_id (builtStreamDB sh key pfn pieces term) sh = some 1 := by
    simp [get_file_row_id, findFileByStreamHash, builtStreamDB, initialFileRow]
  have hmbs : (builtStreamDB sh key pfn pieces term).managed_blobs =
      (List.enumFrom 1 pieces).map (fun ip => mkManaged 1 ip.1 ip.2) := rfl
  have hblobs : (builtStreamDB sh key pfn pieces term).blobs =
      (List.enumFrom 1 pieces).map
        (fun ip => ({ id := ip.1, blob_hash := ip.2.blob_hash.getD "" } : BlobRow)) := rfl
  have hcount : get_count_for_stream (builtStreamDB sh key pfn pieces term) sh =
      pieces.length := by
    rw [get_count_for_stream, hfid]
    simp only [Option.getD_some, hmbs]
    rw [List.filter_eq_self.mpr]
    · rw [List.length_map, List.enumFrom_length]
    · intro mb hmb
      obtain ⟨ip, _, rfl⟩ := List.mem_map.mp hmb
      simp [mkManaged]
  have hpos0 : ∀ i (hi : i < pieces.length), (pieces.get ⟨i, hi⟩).blob_num = 0 + i := by
    intro i hi
    rw [Nat.zero_add]
    exact hpos i hi
  have hfm : ∀ n (hn : n < pieces.length),
      findManagedAt (builtStreamDB sh key pfn pieces term).managed_blobs 1 n =
        some (mkManaged 1 (1 + n) (pieces.get ⟨n, hn⟩)) := by
    intro n hn
    have := findManagedAt_enum 1 pieces 1 0 hpos0 n hn
    rw [Nat.zero_add] at this
    rw [hmbs, this]
  have hfb : ∀ n (hn : n < pieces.length),
      findBlobById (builtStreamDB sh key pfn pieces term).blobs (1 + n) =
        some { id := 1 + n, blob_hash := (pieces.get ⟨n, hn⟩).blob_hash.getD "" } := by
    intro n hn
    rw [hblobs]
    exact findBlobById_enum pieces 1 n hn
  have hres : ∀ n ∈ List.range pieces.length, ∀ mb,
      findManagedAt (builtStreamDB sh key pfn pieces term).managed_blobs 1 n = some mb →
      (findBlobById (builtStreamDB sh key pfn pieces term).blobs mb.id).isSome = true := by
    intro n hn mb hmb
    have hn' := List.mem_range.mp hn
    rw [hfm n hn'] at hmb
    cases hmb
    rw [show (mkManaged 1 (1 + n) (pieces.get ⟨n, hn'⟩)).id = 1 + n from rfl]
    rw [hfb n hn']
    rfl
  have hloop := blobsForStreamLoop_eq (builtStreamDB sh key pfn pieces term) 1
    (List.range pieces.length) hres
  have hf : ∀ n (hn : n < pieces.length),
      (findManagedAt (builtStreamDB sh key pfn pieces term).managed_blobs 1 n).bind
        (resolveInfo (builtStreamDB sh key pfn pieces term)) =
      some (pieceEntry (pieces.get ⟨n, hn⟩)) := by
    intro n hn
    rw [hfm n hn, Option.some_bind, resolveInfo]
    rw [show (mkManaged 1 (1 + n) (pieces.get ⟨n, hn⟩)).id = 1 + n from rfl]
    rw [hfb n hn, Option.map_some']
    have hhash := truthy_some_getD (htr (pieces.get ⟨n, hn⟩) (pieces.get_mem n hn))
    simp only [mkManaged, pieceEntry]
    rw [hhash]
  have hmain : (List.range pieces.length).filterMap (fun n =>
      (findManagedAt (builtStreamDB sh key pfn pieces term).managed_blobs 1 n).bind
        (resolveInfo (builtStreamDB sh key pfn pieces term))) =
      pieces.map pieceEntry := by
    rw [filterMap_eq_map_of (g := fun n =>
      ((findManagedAt (builtStreamDB sh key pfn pieces term).managed_blobs 1 n).bind
        (resolveInfo (builtStreamDB sh key pfn pieces term))).getD
          { hash := none, pos := none, iv := none, len := none })]
    · apply List.ext_get
      · simp
      · intro i h1i h2i
        have hi : i < pieces.length := by simpa using h2i
        rw [List.get_map, List.get_map, List.get_range]
        rw [hf i hi]
        rfl
    · intro n hn
      rw [hf n (List.mem_range.mp hn)]
      rfl
  have hterm2 : get_stream_terminator (builtStreamDB sh key pfn pieces term) (some 1) =
      some (term.blob_num, term.iv) := by
    simp [get_stream_terminator, findTerminatorById, builtStreamDB]
  rw [get_blobs_for_stream]
  rw [hcount, hfid]
  simp only [Option.getD_some]
  rw [hloop, hmain, hterm2]

/-- C2: appending N ordered pieces with distinct truthy hashes plus a
terminator piece (null hash, zero length) to a fresh stream and then
reconstructing returns exactly the N piece entries in position order followed
by one synthetic final entry with null hash, zero length, and position equal
to the terminator's stored piece count. -/
theorem stream_append_then_reconstruct (sh fn key pfn : String)
    (pieces : List StreamBlobInfo) (term : StreamBlobInfo)
    (hpos : ∀ i (hi : i < pieces.length), (pieces.get ⟨i, hi⟩).blob_num = i)
    (htr : ∀ p ∈ pieces, truthyHash p.blob_hash = true)
    (hdist : pieces.Pairwise (fun a b => a.blob_hash ≠ b.blob_hash))
    (hterm : term.blob_hash = none) (hlen : term.length = 0) :
    store_stream emptyDB sh fn key pfn = Except.ok (initialStreamDB sh key pfn) ∧
    get_blobs_for_stream
        (add_blobs_to_stream (initialStreamDB sh key pfn) sh (pieces ++ [term])) sh =
      Except.ok (pieces.map pieceEntry ++
        [{ hash := none, pos := some term.blob_num, iv := term.iv, len := some 0 }]) := by
  refine ⟨rfl, ?_⟩
  rw [add_blobs_builds sh key pfn pieces term htr hdist hterm hlen]
  exact reconstruct_built sh key pfn pieces term hpos htr

/-- Witness for C2 with one piece and a terminator (the spec's §8 scenario). -/
theorem stream_append_then_reconstruct_witness :
    (∀ i (hi : i < ([⟨some "aa", 0, some "iv0", 100⟩] : List StreamBlobInfo).length),
      (([⟨some "aa", 0, some "iv0", 100⟩] : List StreamBlobInfo).get ⟨i, hi⟩).blob_num = i) ∧
    (∀ p ∈ ([⟨some "aa", 0, some "iv0", 100⟩] : List StreamBlobInfo),
      truthyHash p.blob_hash = true) ∧
    (([⟨some "aa", 0, some "iv0", 100⟩] : List StreamBlobInfo).Pairwise
      (fun a b => a.blob_hash ≠ b.blob_hash)) ∧
    (store_stream emptyDB "bb" "movie.mp4" "key" "sug" =
      Except.ok (initialStreamDB "bb" "key" "sug") ∧
    get_blobs_for_stream
        (add_blobs_to_stream (initialStreamDB "bb" "key" "sug") "bb"
          ([⟨some "aa", 0, some "iv0", 100⟩] ++ [⟨none, 1, some "iv1", 0⟩])) "bb" =
      Except.ok ([⟨some "aa", 0, some "iv0", 100⟩].map pieceEntry ++
        [{ hash := none, pos := some 1, iv := some "iv1", len := some 0 }])) := by
  refine ⟨?_, ?_, ?_, ?_⟩
  · intro i hi
    match i, hi with
    | 0, _ => rfl
  · decide
  · decide
  · exact stream_append_then_reconstruct "bb" "movie.mp4" "key" "sug"
      [⟨some "aa", 0, some "iv0", 100⟩] ⟨none, 1, some "iv1", 0⟩
      (fun i hi => match i, hi with | 0, _ => rfl) (by decide) (by decide) rfl rfl

/-! ## C7: reconstruction of a stream with a position gap -/

/-- A store holding a stream with pieces at positions 0, 2 and 3 (gap at 1). -/
def gapDB : DB := add_blobs_to_stream (initialStreamDB "bb" "key" "sug") "bb"
  [⟨some "a", 0, some "i0", 10⟩, ⟨some "b", 2, some "i2", 12⟩, ⟨some "c", 3, some "i3", 13⟩]

/-- Counterexample to C7 as stated: with pieces at positions 0, 2, 3 the
first gap is position 1, yet reconstruction also returns the entry at
position 2, so it does not truncate at the first missing position. -/
theorem reconstruct_gap_not_truncated :
    get_blobs_for_stream gapDB "bb" =
      Except.ok [{ hash := some "a", pos := some 0, iv := some "i0", len := some 10 },
                 { hash := some "b", pos := some 2, iv := some "i2", len := some 12 }] ∧
    (Except.ok [{ hash := some "a", pos := some 0, iv := some "i0", len := some 10 },
                { hash := some "b", pos := some 2, iv := some "i2", len := some 12 }] :
        Except Err (List BlobInfo)) ≠
      Except.ok [{ hash := some "a", pos := some 0, iv := some "i0", len := some 10 }] := by
  constructor
  · decide
  · decide

/-- An entry produced at queried position `n` carries position `n`. -/
theorem resolve_pos_eq (db : DB) (fid n : Nat) (e : BlobInfo)
    (h : (findManagedAt db.managed_blobs fid n).bind (resolveInfo db) = some e) :
    e.pos = some n := by
  match hfm : findManagedAt db.managed_blobs fid n with
  | none => rw [hfm] at h; cases h
  | some mb =>
    rw [hfm, Option.some_bind, resolveInfo] at h
    match hfb : findBlobById db.blobs mb.id with
    | none => rw [hfb] at h; cases h
    | some b =>
      rw [hfb, Option.map_some'] at h
      cases h
      have hpred := List.find?_some hfm
      simp only [Bool.and_eq_true, beq_iff_eq] at hpred
      exact hpred.2

/-- C7 (amended): for a stream whose stored pieces have a gap, reconstruction
does not truncate at the first missing position; it returns exactly the
present entries at positions strictly below the stored piece count, in
position order, silently skipping the missing positions, plus the terminator
entry when one is stored. -/
theorem get_blobs_for_stream_gap (db : DB) (sh : String) (fid : Nat)
    (hfile : get_file_row_id db sh = some fid)
    (hres : ∀ mb ∈ db.managed_blobs, mb.file_id = some fid →
      (findBlobById db.blobs mb.id).isSome = true)
    (huniq : ∀ a ∈ db.managed_blobs, ∀ b ∈ db.managed_blobs,
      a.file_id = some fid → b.file_id = some fid →
      a.stream_position ≠ none → a.stream_position = b.stream_position → a = b)
    (hgap : ∃ g, g < get_count_for_stream db sh ∧
      ∀ mb ∈ db.managed_blobs, mb.file_id = some fid → mb.stream_position ≠ some g) :
    ∃ l tl : List BlobInfo,
      get_blobs_for_stream db sh = Except.ok (l ++ tl) ∧
      (∀ e, e ∈ l ↔ ∃ mb ∈ db.managed_blobs, mb.file_id = some fid ∧
        ∃ n, n < get_count_for_stream db sh ∧ mb.stream_position = some n ∧
          resolveInfo db mb = some e) ∧
      l.Pairwise (fun a b => ∃ pa pb, a.pos = some pa ∧ b.pos = some pb ∧ pa < pb) ∧
      (get_stream_terminator db (some fid) = none → tl = []) ∧
      (∀ bc iv, get_stream_terminator db (some fid) = some (bc, iv) →
        tl = [{ hash := none, pos := some bc, iv := iv, len := some 0 }]) := by
  clear hgap
  have hres' : ∀ n ∈ List.range (get_count_for_stream db sh), ∀ mb,
      findManagedAt db.managed_blobs fid n = some mb →
      (findBlobById db.blobs mb.id).isSome = true := by
    intro n _ mb hmb
    have hpred := List.find?_some hmb
    simp only [findManagedAt] at hmb
    simp only [Bool.and_eq_true, beq_iff_eq] at hpred
    exact hres mb (List.mem_of_find?_eq_some hmb) hpred.1
  have hloop := blobsForStreamLoop_eq db fid (List.range (get_count_for_stream db sh)) hres'
  refine ⟨(List.range (get_count_for_stream db sh)).filterMap (fun n =>
      (findManagedAt db.managed_blobs fid n).bind (resolveInfo db)),
    (match get_stream_terminator db (some fid) with
      | none => []
      | some (bc, iv) => [{ hash := none, pos := some bc, iv := iv, len := some 0 }]),
    ?_, ?_, ?_, ?_, ?_⟩
  · rw [get_blobs_for_stream, hfile]
    simp only [Option.getD_some]
    rw [hloop]
    cases hterm : get_stream_terminator db (some fid) with
    | none => rw [List.append_nil]
    | some v =>
      obtain ⟨bc, iv⟩ := v
      rfl
  · intro e
    rw [List.mem_filterMap]
    constructor
    · rintro ⟨n, hn, hf⟩
      match hfm : findManagedAt db.managed_blobs fid n with
      | none => rw [hfm] at hf; cases hf
      | some mb =>
        rw [hfm, Option.some_bind] at hf
        have hpred := List.find?_some hfm
        simp only [Bool.and_eq_true, beq_iff_eq] at hpred
        have hmem : mb ∈ db.managed_blobs := List.mem_of_find?_eq_some hfm
        exact ⟨mb, hmem, hpred.1, n, List.mem_range.mp hn, hpred.2, hf⟩
    · rintro ⟨mb, hmb, hfidmb, n, hn, hpos, hresv⟩
      refine ⟨n, List.mem_range.mpr hn, ?_⟩
      have hfm : findManagedAt db.managed_blobs fid n = some mb := by
        apply find?_eq_of_unique hmb
        · simp [hfidmb, hpos]
        · intro x hx hpx
          simp only [Bool.and_eq_true, beq_iff_eq] at hpx
          exact huniq x hx mb hmb hpx.1 hfidmb (by rw [hpx.2]; exact Option.some_ne_none n)
            (by rw [hpx.2, hpos])
      rw [hfm, Option.some_bind, hresv]
  · apply List.Pairwise.filterMap
    · intro a a' haa' b hb b' hb'
      simp only [Option.mem_def] at hb hb'
      exact ⟨a, a', resolve_pos_eq db fid a b hb, resolve_pos_eq db fid a' b' hb', haa'⟩
    · exact List.pairwise_lt_range _
  · intro hterm
    rw [hterm]
  · intro bc iv hterm
    rw [hterm]

/-- Witness for the amended C7 at the gapped concrete store. -/
theorem get_blobs_for_stream_gap_witness :
    (get_file_row_id gapDB "bb" = some 1) ∧
    (∀ mb ∈ gapDB.managed_blobs, mb.file_id = some 1 →
      (findBlobById gapDB.blobs mb.id).isSome = true) ∧
    (∀ a ∈ gapDB.managed_blobs, ∀ b ∈ gapDB.managed_blobs,
      a.file_id = some 1 → b.file_id = some 1 →
      a.stream_position ≠ none → a.stream_position = b.stream_position → a = b) ∧
    (∃ g, g < get_count_for_stream gapDB "bb" ∧
      ∀ mb ∈ gapDB.managed_blobs, mb.file_id = some 1 → mb.stream_position ≠ some g) ∧
    (∃ l tl : List BlobInfo,
      get_blobs_for_stream gapDB "bb" = Except.ok (l ++ tl) ∧
      (∀ e, e ∈ l ↔ ∃ mb ∈ gapDB.managed_blobs, mb.file_id = some 1 ∧
        ∃ n, n < get_count_for_stream gapDB "bb" ∧ mb.stream_position = some n ∧
          resolveInfo gapDB mb = some e) ∧
      l.Pairwise (fun a b => ∃ pa pb, a.pos = some pa ∧ b.pos = some pb ∧ pa < pb) ∧
      (get_stream_terminator gapDB (some 1) = none → tl = []) ∧
      (∀ bc iv, get_stream_terminator gapDB (some 1) = some (bc, iv) →
        tl = [{ hash := none, pos := some bc, iv := iv, len := some 0 }])) :=
  ⟨by decide, by decide, by decide, ⟨1, by decide, by decide⟩,
   get_blobs_for_stream_gap gapDB "bb" 1 (by decide) (by decide) (by decide)
     ⟨1, by decide, by decide⟩⟩

/-! ## C3: electing a winner twice under one name -/

/-- The claim row `add_claim` inserts. -/
def initClaimRow (i : Nat) (name : String) (status : String) (txid : String) (nout : Nat)
    (cid : Option String) (h : String) (m : Bool) : ClaimRow :=
  { id := i, name := name, status := status, txid := txid, nout := nout
    claim_transaction_id := cid, claim_hash := h
    sd_blob_id := some (if m then 1 else 0), is_mine := none }

/-- The store reached by observing claims A and B under one name and then
electing A and finally B. -/
def electScenarioDB (name tA tB : String) (nA nB : Nat) (cA cB : Option String)
    (mA mB : Bool) (now2 : Int) (hA hB : String) : DB :=
  { blobs := [], managed_blobs := [], files := [], stream_terminators := []
    claims := [initClaimRow 1 name CLAIM_STATUS.INACTIVE tA nA cA hA mA,
               initClaimRow 2 name CLAIM_STATUS.ACTIVE tB nB cB hB mB]
    winning_claims := [{ id := 1, name := name, claim_id := 2, last_checked := now2 }]
    metadata := [], next_blob_id := 1, next_file_id := 1, next_claim_id := 3
    next_winning_id := 2 }

/-- C3: observing two distinct claims under one name and electing first A
then B leaves exactly one `winning_claims` row for the name, referencing B,
with B `ACTIVE` and A `INACTIVE`. -/
theorem elect_winner_latest (name tA tB : String) (nA nB : Nat)
    (cA cB : Option String) (mA mB : Bool) (now1 now2 : Int) (hA hB : String)
    (hcA : condensed_claim_out tA nA = some hA)
    (hcB : condensed_claim_out tB nB = some hB)
    (hne : hA ≠ hB) :
    ∃ db4 : DB,
      ((add_claim emptyDB name tA nA cA mA).bind (fun db =>
        (add_claim db name tB nB cB mB).bind (fun db =>
        (set_winning_claim db name tA nA now1).bind (fun db =>
         set_winning_claim db name tB nB now2)))) = Except.ok db4 ∧
      db4.winning_claims = [{ id := 1, name := name, claim_id := 2, last_checked := now2 }] ∧
      get_claim_status db4 hB = some CLAIM_STATUS.ACTIVE ∧
      get_claim_status db4 hA = some CLAIM_STATUS.INACTIVE := by
  have hBA : hB ≠ hA := fun h => hne h.symm
  have hne1 : (hA == hB) = false := by
    simp [hne]
  have hne2 : (hB == hA) = false := by
    simp [hBA]
  refine ⟨electScenarioDB name tA tB nA nB cA cB mA mB now2 hA hB, ?_, rfl, ?_, ?_⟩
  · simp [add_claim, hcA, hcB, set_winning_claim, upsertWinningClaim,
      deactivateActiveClaims, update_claim_status, get_claim_row_id, findClaimByHash,
      setClaimStatusById, hne1, hne2, Except.bind, CLAIM_STATUS.INIT, CLAIM_STATUS.ACTIVE,
      CLAIM_STATUS.INACTIVE, electScenarioDB, initClaimRow, emptyDB]
  · simp [get_claim_status, get_claim_row_id, findClaimByHash, findClaimById, hne1, hne2,
      electScenarioDB, initClaimRow]
  · simp [get_claim_status, get_claim_row_id, findClaimByHash, findClaimById, hne1, hne2,
      electScenarioDB, initClaimRow]

/-- Derived hash of outpoint `("aa", 0)`, for the C3 witness. -/
def hashOutA : String := (condensed_claim_out "aa" 0).getD ""

/-- Derived hash of outpoint `("bb", 1)`, for the C3 witness. -/
def hashOutB : String := (condensed_claim_out "bb" 1).getD ""

/-- Witness for C3 at concrete outpoints and times. -/
theorem elect_winner_latest_witness :
    condensed_claim_out "aa" 0 = some hashOutA ∧
    condensed_claim_out "bb" 1 = some hashOutB ∧
    hashOutA ≠ hashOutB ∧
    (∃ db4 : DB,
      ((add_claim emptyDB "cat" "aa" 0 none false).bind (fun db =>
        (add_claim db "cat" "bb" 1 none false).bind (fun db =>
        (set_winning_claim db "cat" "aa" 0 100).bind (fun db =>
         set_winning_claim db "cat" "bb" 1 200)))) = Except.ok db4 ∧
      db4.winning_claims = [{ id := 1, name := "cat", claim_id := 2, last_checked := 200 }] ∧
      get_claim_status db4 hashOutB = some CLAIM_STATUS.ACTIVE ∧
      get_claim_status db4 hashOutA = some CLAIM_STATUS.INACTIVE) :=
  ⟨by decide, by decide, by decide,
   elect_winner_latest "cat" "aa" "bb" 0 1 none none false false 100 200
     hashOutA hashOutB (by decide) (by decide) (by decide)⟩

/-! ## C9: re-running the election is idempotent -/

/-- Setting the status of every claim whose id is listed. -/
def statusMask (ids : List Nat) (st : String) (c : ClaimRow) : ClaimRow :=
  if c.id ∈ ids then { c with status := st } else c

/-- `statusMask` only touches the status field. -/
theorem statusMask_id (ids : List Nat) (st : String) (c : ClaimRow) :
    (statusMask ids st c).id = c.id := by
  rw [statusMask]
  split <;> rfl

/-- `statusMask` preserves the claim hash. -/
theorem statusMask_hash (ids : List Nat) (st : String) (c : ClaimRow) :
    (statusMask ids st c).claim_hash = c.claim_hash := by
  rw [statusMask]
  split <;> rfl

/-- `statusMask` preserves the name. -/
theorem statusMask_name (ids : List Nat) (st : String) (c : ClaimRow) :
    (statusMask ids st c).name = c.name := by
  rw [statusMask]
  split <;> rfl

/-- A single status update is a one-id mask. -/
theorem setClaimStatusById_eq_mask (l : List ClaimRow) (i : Nat) (st : String) :
    setClaimStatusById l i st = l.map (statusMask [i] st) := by
  apply List.map_congr_left
  intro c _
  by_cases hci : c.id = i <;> simp [statusMask, hci]

/-- The deactivation fold over a list of ids is a status mask. -/
theorem foldStatus_eq_map (st : String) (ids : List Nat) :
    ∀ l : List ClaimRow,
      ids.foldl (fun acc i => setClaimStatusById acc i st) l = l.map (statusMask ids st) := by
  induction ids with
  | nil =>
    intro l
    rw [List.foldl_nil]
    symm
    apply map_eq_self_of
    intro c _
    simp [statusMask]
  | cons i ids ih =>
    intro l
    rw [List.foldl_cons, ih, setClaimStatusById_eq_mask, List.map_map]
    apply List.map_congr_left
    intro c _
    by_cases hci : c.id = i
    · by_cases hcm : c.id ∈ ids <;>
        simp [statusMask, Function.comp, hci, hcm]
    · by_cases hcm : c.id ∈ ids <;>
        simp [statusMask, Function.comp, hci, hcm]

/-- The per-row fold of `deactivateActiveClaims` only rewrites the claims
table. -/
theorem foldDeactivate_db (st : String) (ids : List Nat) :
    ∀ db : DB,
    ids.foldl (fun d i => { d with claims := setClaimStatusById d.claims i st }) db =
      { db with claims := ids.foldl (fun acc i => setClaimStatusById acc i st) db.claims } := by
  induction ids with
  | nil => intro db; rfl
  | cons i ids ih =>
    intro db
    rw [List.foldl_cons, List.foldl_cons, ih]

/-- The ids of the claims of a name currently `ACTIVE`. -/
def activeIdsOf (l : List ClaimRow) (name : String) : List Nat :=
  (l.filter (fun c => c.name == name && c.status == CLAIM_STATUS.ACTIVE)).map (·.id)

/-- `deactivateActiveClaims` masks the active claims of the name to
`INACTIVE` and leaves every other table alone. -/
theorem deactivateActiveClaims_eq (db : DB) (name : String) :
    deactivateActiveClaims db name = { db with
      claims := db.claims.map
        (statusMask (activeIdsOf db.claims name) CLAIM_STATUS.INACTIVE) } := by
  rw [deactivateActiveClaims, foldDeactivate_db, foldStatus_eq_map, activeIdsOf]

/-- Claim lookup by hash commutes with a hash-preserving row rewrite. -/
theorem findClaimByHash_map (l : List ClaimRow) (h : String) (f : ClaimRow → ClaimRow)
    (hf : ∀ c, (f c).claim_hash = c.claim_hash) :
    findClaimByHash (l.map f) h = (findClaimByHash l h).map f := by
  rw [findClaimByHash, findClaimByHash, List.find?_map]
  have hpred : ((fun c => c.claim_hash == h) ∘ f) = (fun c : ClaimRow => c.claim_hash == h) := by
    funext c
    simp [Function.comp, hf c]
  rw [hpred]

/-- A record update writing the status it already has is the identity. -/
theorem claimRow_set_status_self {x : ClaimRow} {st : String} (h : x.status = st) :
    ({ x with status := st } : ClaimRow) = x := by
  cases x
  simp_all

/-- What a successful upsert guarantees: claims untouched, exactly one
winning row for the name, that row referencing the claim, and no other row
referencing it. -/
theorem upsertWinningClaim_ok (db : DB) (name : String) (cid : Nat) (now : Int)
    (dbU : DB) (hup : upsertWinningClaim db name cid now = Except.ok dbU) :
    dbU.claims = db.claims ∧
    (dbU.winning_claims.filter (fun w => w.name == name)).length = 1 ∧
    (∀ w ∈ dbU.winning_claims, (w.name == name) = true → w.claim_id = cid) ∧
    (∀ w ∈ dbU.winning_claims, (w.name == name) = false → w.claim_id ≠ cid) := by
  rw [upsertWinningClaim] at hup
  split at hup
  · -- insert path
    rename_i hins
    split at hup
    · cases hup
    · rename_i hany
      have hany2 : db.winning_claims.any (fun w => w.claim_id == cid) = false :=
        Bool.eq_false_iff.mpr hany
      have hany' : ∀ w ∈ db.winning_claims, ¬ (w.claim_id == cid) = true := by
        intro w hw
        exact List.any_eq_false.mp hany2 w hw
      have hfilter : db.winning_claims.filter (fun w => w.name == name) = [] :=
        List.isEmpty_iff.mp hins
      rw [Except.ok.injEq] at hup
      subst hup
      refine ⟨rfl, ?_, ?_, ?_⟩
      · show ((db.winning_claims ++ [_]).filter _).length = 1
        rw [List.filter_append, hfilter]
        simp
      · intro w hw hwname
        simp only [List.mem_append, List.mem_singleton] at hw
        rcases hw with hw | rfl
        · have hmem : w ∈ db.winning_claims.filter (fun w => w.name == name) :=
            List.mem_filter.mpr ⟨hw, hwname⟩
          rw [hfilter] at hmem
          cases hmem
        · rfl
      · intro w hw hwname
        simp only [List.mem_append, List.mem_singleton] at hw
        rcases hw with hw | rfl
        · have hne := hany' w hw
          simp only [beq_iff_eq] at hne
          exact hne
        · simp at hwname
  · -- update path
    rename_i hins
    split at hup
    · cases hup
    · rename_i hbad
      push_neg at hbad
      obtain ⟨hlt, hany⟩ := hbad
      have hany2 : db.winning_claims.any (fun w => !(w.name == name) && w.claim_id == cid) =
          false := Bool.eq_false_iff.mpr hany
      have hany' : ∀ w ∈ db.winning_claims,
          ¬ (!(w.name == name) && w.claim_id == cid) = true := by
        intro w hw
        exact List.any_eq_false.mp hany2 w hw
      have hne : ¬ db.winning_claims.filter (fun w => w.name == name) = [] := by
        intro hnil
        rw [← List.isEmpty_iff] at hnil
        exact hins hnil
      have hlen : (db.winning_claims.filter (fun w => w.name == name)).length = 1 := by
        have h0 : (db.winning_claims.filter (fun w => w.name == name)).length ≠ 0 := by
          intro h0
          exact hne (List.length_eq_zero.mp h0)
        omega
      rw [Except.ok.injEq] at hup
      subst hup
      have hnamepred : ((fun w : WinningClaimRow => w.name == name) ∘ (fun w =>
          if w.name == name then { w with claim_id := cid, last_checked := now } else w)) =
          (fun w : WinningClaimRow => w.name == name) := by
        funext w
        by_cases hw : (w.name == name) = true <;> simp [Function.comp, hw]
      refine ⟨rfl, ?_, ?_, ?_⟩
      · show ((db.winning_claims.map _).filter _).length = 1
        rw [List.filter_map, hnamepred, List.length_map]
        exact hlen
      · intro w hw hwname
        obtain ⟨w0, hw0, rfl⟩ := List.mem_map.mp hw
        by_cases h0 : (w0.name == name) = true
        · rw [if_pos h0]
        · rw [if_neg (by simp [h0])] at hwname
          exact absurd hwname h0
      · intro w hw hwname
        obtain ⟨w0, hw0, rfl⟩ := List.mem_map.mp hw
        by_cases h0 : (w0.name == name) = true
        · rw [if_pos h0] at hwname
          simp only [h0] at hwname
          cases hwname
        · rw [if_neg (by simp [h0])] at hwname ⊢
          have hcond := hany' w0 hw0
          simp only [Bool.and_eq_true, Bool.not_eq_true', beq_iff_eq] at hcond
          intro hcontra
          apply hcond
          constructor
          · simpa using h0
          · simpa using hcontra

/-- Re-running the upsert against a table already in the post-upsert shape
succeeds and only refreshes the timestamp of the name's row. -/
theorem upsertWinningClaim_again (dbX : DB) (name : String) (cid : Nat) (now : Int)
    (hlen : (dbX.winning_claims.filter (fun w => w.name == name)).length = 1)
    (hmatch : ∀ w ∈ dbX.winning_claims, (w.name == name) = true → w.claim_id = cid)
    (hother : ∀ w ∈ dbX.winning_claims, (w.name == name) = false → w.claim_id ≠ cid) :
    upsertWinningClaim dbX name cid now = Except.ok { dbX with
      winning_claims := dbX.winning_claims.map (fun w =>
        if w.name == name then { w with last_checked := now } else w) } := by
  have hne : (dbX.winning_claims.filter (fun w => w.name == name)).isEmpty = false := by
    rcases hfe : (dbX.winning_claims.filter (fun w => w.name == name)) with _ | ⟨a, l⟩
    · rw [hfe] at hlen
      cases hlen
    · rw [hfe]
      rfl
  rw [upsertWinningClaim, if_neg (by simp [hne])]
  rw [if_neg ?hcheck]
  case hcheck =>
    rintro (h2 | hany)
    · omega
    · rw [List.any_eq_true] at hany
      obtain ⟨w, hw, hcond⟩ := hany
      simp only [Bool.and_eq_true, Bool.not_eq_true', beq_iff_eq] at hcond
      exact hother w hw (by simp [hcond.1]) (by simpa using hcond.2)
  rw [Except.ok.injEq]
  congr 1
  apply List.map_congr_left
  intro w hw
  by_cases h0 : (w.name == name) = true
  · rw [if_pos h0, if_pos h0]
    have hcid := hmatch w hw h0
    cases w
    simp_all
  · rw [if_neg (by simp [h0]), if_neg (by simp [h0])]

/-- Masking a listed id sets the status. -/
theorem statusMask_status_of_mem {ids : List Nat} {st : String} {c : ClaimRow}
    (h : c.id ∈ ids) : statusMask ids st c = { c with status := st } := by
  rw [statusMask, if_pos h]

/-- Masking an unlisted id is the identity. -/
theorem statusMask_of_not_mem {ids : List Nat} {st : String} {c : ClaimRow}
    (h : c.id ∉ ids) : statusMask ids st c = c := by
  rw [statusMask, if_neg h]

/-- C9: re-running `set_winning_claim` with the same name and outpoint
immediately after a completed run succeeds and leaves the status of every
claim and the winning-claim reference exactly as after the first run; only
the last-checked timestamp of the name's winning row changes. -/
theorem set_winning_claim_rerun (db : DB) (name txid : String) (nout : Nat)
    (now1 now2 : Int) (db1 : DB)
    (h1 : set_winning_claim db name txid nout now1 = Except.ok db1) :
    ∃ db2 : DB, set_winning_claim db1 name txid nout now2 = Except.ok db2 ∧
      db2.claims = db1.claims ∧
      db2.winning_claims = db1.winning_claims.map (fun w =>
        if w.name == name then { w with last_checked := now2 } else w) := by
  rw [set_winning_claim] at h1
  match hc : condensed_claim_out txid nout with
  | none =>
    simp only [hc] at h1
    exact Except.noConfusion h1
  | some h =>
  simp only [hc] at h1
  match hfc : findClaimByHash db.claims h with
  | none =>
    simp only [hfc] at h1
    exact Except.noConfusion h1
  | some c =>
  simp only [hfc] at h1
  match hup : upsertWinningClaim db name c.id now1 with
  | Except.error e =>
    simp only [hup] at h1
    exact Except.noConfusion h1
  | Except.ok dbU =>
  simp only [hup] at h1
  obtain ⟨hUclaims, hUlen, hUmatch, hUother⟩ := upsertWinningClaim_ok db name c.id now1 dbU hup
  rw [deactivateActiveClaims_eq] at h1
  have hfcU : findClaimByHash dbU.claims h = some c := by
    rw [hUclaims]
    exact hfc
  have hfc1 : findClaimByHash (dbU.claims.map
      (statusMask (activeIdsOf dbU.claims name) CLAIM_STATUS.INACTIVE)) h =
      some (statusMask (activeIdsOf dbU.claims name) CLAIM_STATUS.INACTIVE c) := by
    rw [findClaimByHash_map _ _ _ (statusMask_hash _ _), hfcU]
    rfl
  rw [update_claim_status, get_claim_row_id] at h1
  simp only [hfc1, Option.map_some', statusMask_id] at h1
  rw [Except.ok.injEq] at h1
  -- the claims table after run 1 is a composite status mask of the original
  have hc1 : db1.claims = dbU.claims.map (fun x => statusMask [c.id] CLAIM_STATUS.ACTIVE
      (statusMask (activeIdsOf dbU.claims name) CLAIM_STATUS.INACTIVE x)) := by
    rw [← h1]
    show setClaimStatusById (dbU.claims.map
      (statusMask (activeIdsOf dbU.claims name) CLAIM_STATUS.INACTIVE)) c.id
      CLAIM_STATUS.ACTIVE = _
    rw [setClaimStatusById_eq_mask, List.map_map]
    rfl
  have hw1 : db1.winning_claims = dbU.winning_claims := by
    rw [← h1]
  have hKhash : ∀ x : ClaimRow, (statusMask [c.id] CLAIM_STATUS.ACTIVE
      (statusMask (activeIdsOf dbU.claims name) CLAIM_STATUS.INACTIVE x)).claim_hash =
      x.claim_hash := by
    intro x
    simp only [statusMask_hash]
  have hKid : ∀ x : ClaimRow, (statusMask [c.id] CLAIM_STATUS.ACTIVE
      (statusMask (activeIdsOf dbU.claims name) CLAIM_STATUS.INACTIVE x)).id = x.id := by
    intro x
    simp only [statusMask_id]
  have hfc2 : findClaimByHash db1.claims h = some (statusMask [c.id] CLAIM_STATUS.ACTIVE
      (statusMask (activeIdsOf dbU.claims name) CLAIM_STATUS.INACTIVE c)) := by
    rw [hc1, findClaimByHash_map _ _ _ hKhash, hfcU]
    rfl
  -- facts about the claims table after run 1
  have hS1 : ∀ x ∈ db1.claims, x.id = c.id → x.status = CLAIM_STATUS.ACTIVE := by
    intro x hx hxid
    rw [hc1] at hx
    obtain ⟨y, hy, rfl⟩ := List.mem_map.mp hx
    rw [hKid] at hxid
    have hmem : (statusMask (activeIdsOf dbU.claims name) CLAIM_STATUS.INACTIVE y).id ∈
        [c.id] := by
      rw [statusMask_id, hxid]
      exact List.mem_singleton.mpr rfl
    rw [statusMask_status_of_mem hmem]
  have hS3 : ∀ i ∈ activeIdsOf db1.claims name, i = c.id := by
    intro i hi
    rw [activeIdsOf] at hi
    obtain ⟨x, hx, rfl⟩ := List.mem_map.mp hi
    obtain ⟨hxmem, hxp⟩ := List.mem_filter.mp hx
    rw [hc1] at hxmem
    obtain ⟨y, hy, rfl⟩ := List.mem_map.mp hxmem
    by_cases hyid : y.id = c.id
    · rw [hKid]
      exact hyid
    · have houter : (statusMask (activeIdsOf dbU.claims name) CLAIM_STATUS.INACTIVE y).id ∉
          [c.id] := by
        rw [statusMask_id]
        simp [hyid]
      rw [statusMask_of_not_mem houter] at hxp ⊢
      by_cases hyA : y.id ∈ activeIdsOf dbU.claims name
      · rw [statusMask_status_of_mem hyA] at hxp
        simp only [Bool.and_eq_true, beq_iff_eq] at hxp
        have hcontra : CLAIM_STATUS.INACTIVE = CLAIM_STATUS.ACTIVE := hxp.2
        simp [CLAIM_STATUS.INACTIVE, CLAIM_STATUS.ACTIVE] at hcontra
      · rw [statusMask_of_not_mem hyA] at hxp
        have hyA2 : y.id ∈ activeIdsOf dbU.claims name := by
          rw [activeIdsOf]
          exact List.mem_map.mpr ⟨y, List.mem_filter.mpr ⟨hy, hxp⟩, rfl⟩
        exact absurd hyA2 hyA
  -- run 2
  have hAgain := upsertWinningClaim_again db1 name c.id now2
    (by rw [hw1]; exact hUlen)
    (by rw [hw1]; exact hUmatch)
    (by rw [hw1]; exact hUother)
  have hfc3 : findClaimByHash (db1.claims.map
      (statusMask (activeIdsOf db1.claims name) CLAIM_STATUS.INACTIVE)) h =
      some (statusMask (activeIdsOf db1.claims name) CLAIM_STATUS.INACTIVE
        (statusMask [c.id] CLAIM_STATUS.ACTIVE
          (statusMask (activeIdsOf dbU.claims name) CLAIM_STATUS.INACTIVE c))) := by
    rw [findClaimByHash_map _ _ _ (statusMask_hash _ _), hfc2]
    rfl
  have hfix : setClaimStatusById (db1.claims.map
      (statusMask (activeIdsOf db1.claims name) CLAIM_STATUS.INACTIVE))
      ((statusMask (activeIdsOf db1.claims name) CLAIM_STATUS.INACTIVE
        (statusMask [c.id] CLAIM_STATUS.ACTIVE
          (statusMask (activeIdsOf dbU.claims name) CLAIM_STATUS.INACTIVE c))).id)
      CLAIM_STATUS.ACTIVE = db1.claims := by
    rw [statusMask_id, hKid, setClaimStatusById_eq_mask, List.map_map]
    apply map_eq_self_of
    intro x hx
    show statusMask [c.id] CLAIM_STATUS.ACTIVE
      (statusMask (activeIdsOf db1.claims name) CLAIM_STATUS.INACTIVE x) = x
    by_cases hxid : x.id = c.id
    · have hst := hS1 x hx hxid
      have houter : ∀ z : ClaimRow, z.id = c.id →
          statusMask [c.id] CLAIM_STATUS.ACTIVE z =
            { z with status := CLAIM_STATUS.ACTIVE } := by
        intro z hz
        exact statusMask_status_of_mem (by rw [hz]; exact List.mem_singleton.mpr rfl)
      by_cases hx2 : x.id ∈ activeIdsOf db1.claims name
      · rw [statusMask_status_of_mem hx2, houter _ (by simpa using hxid)]
        exact claimRow_set_status_self hst
      · rw [statusMask_of_not_mem hx2, houter _ hxid]
        exact claimRow_set_status_self hst
    · have hx2 : x.id ∉ activeIdsOf db1.claims name := fun hmem => hxid (hS3 _ hmem)
      rw [statusMask_of_not_mem hx2, statusMask_of_not_mem (by simp [hxid])]
  refine ⟨{ db1 with winning_claims := db1.winning_claims.map (fun w =>
    if w.name == name then { w with last_checked := now2 } else w) }, ?_, rfl, rfl⟩
  rw [set_winning_claim, hc]
  simp only [hfc2, hKid, hAgain, deactivateActiveClaims_eq]
  rw [update_claim_status, get_claim_row_id]
  simp only [hfc3, Option.map_some', hfix]

/-- Store with one observed claim, base of the C9 witness. -/
def rerunBaseDB : DB := (add_claim emptyDB "cat" "aa" 0 none false).toOption.getD emptyDB

/-- Store after the first election, for the C9 witness. -/
def rerunDB1 : DB := (set_winning_claim rerunBaseDB "cat" "aa" 0 100).toOption.getD emptyDB

/-- Witness for C9 at a concrete store, name, outpoint and times. -/
theorem set_winning_claim_rerun_witness :
    set_winning_claim rerunBaseDB "cat" "aa" 0 100 = Except.ok rerunDB1 ∧
    (∃ db2 : DB, set_winning_claim rerunDB1 "cat" "aa" 0 200 = Except.ok db2 ∧
      db2.claims = rerunDB1.claims ∧
      db2.winning_claims = rerunDB1.winning_claims.map (fun w =>
        if w.name == "cat" then { w with last_checked := 200 } else w)) :=
  ⟨by decide,
   set_winning_claim_rerun rerunBaseDB "cat" "aa" 0 100 200 rerunDB1 (by decide)⟩

/-! ## C4, C10: metadata attachment -/

/-- `get_blob_row_id` only touches the blob tables. -/
theorem get_blob_row_id_frame (db : DB) (h : Option String) :
    (get_blob_row_id db h).2.metadata = db.metadata ∧
    (get_blob_row_id db h).2.claims = db.claims := by
  rcases h with _ | s
  · rcases hfb : findBlobByHash db.blobs none with _ | b <;>
      simp only [get_blob_row_id, hfb] <;> constructor <;> trivial
  · rcases hfb : findBlobByHash db.blobs (some s) with _ | b
    · cases he : s.isEmpty <;>
        simp only [get_blob_row_id, hfb, he, Bool.false_eq_true, if_true, if_false] <;>
        constructor <;> trivial
    · simp only [get_blob_row_id, hfb]
      constructor <;> trivial

/-- `add_blob_hash` when `get_blob_row_id` already resolves the hash. -/
theorem add_blob_hash_hit (db dbg : DB) (h : Option String) (j : Nat)
    (hgb : get_blob_row_id db h = (some j, dbg)) :
    add_blob_hash db h = Except.ok (j, dbg) := by
  rw [add_blob_hash, hgb]

/-- `add_blob_hash` on an unresolved null hash raises `IntegrityError`. -/
theorem add_blob_hash_none_miss (db dbg : DB)
    (hgb : get_blob_row_id db none = (none, dbg)) :
    add_blob_hash db none = Except.error Err.integrityError := by
  rw [add_blob_hash, hgb]
  rfl

/-- `add_blob_hash` on an unresolved non-null hash inserts and re-resolves. -/
theorem add_blob_hash_miss (db dbg : DB) (s : String)
    (hgb : get_blob_row_id db (some s) = (none, dbg)) :
    add_blob_hash db (some s) =
      (match get_blob_row_id { dbg with
          blobs := dbg.blobs ++ [{ id := dbg.next_blob_id, blob_hash := s }]
          next_blob_id := dbg.next_blob_id + 1 } (some s) with
        | (blob_id2, db2) => Except.ok (blob_id2.getD 0, db2)) := by
  rw [add_blob_hash, hgb]

/-- A successful `add_blob_hash` only touches the blob tables. -/
theorem add_blob_hash_frame (db : DB) (h : Option String) (i : Nat) (db' : DB)
    (hok : add_blob_hash db h = Except.ok (i, db')) :
    db'.metadata = db.metadata ∧ db'.claims = db.claims := by
  have hframe := get_blob_row_id_frame db h
  rcases hgb : get_blob_row_id db h with ⟨bid, dbg⟩
  rw [hgb] at hframe
  match bid with
  | some j =>
    rw [add_blob_hash_hit db dbg h j hgb] at hok
    simp only [Except.ok.injEq, Prod.mk.injEq] at hok
    rw [← hok.2]
    exact hframe
  | none =>
    match h with
    | none =>
      rw [add_blob_hash_none_miss db dbg hgb] at hok
      exact Except.noConfusion hok
    | some s =>
      have hframe2 := get_blob_row_id_frame
        { dbg with
          blobs := dbg.blobs ++ [{ id := dbg.next_blob_id, blob_hash := s }]
          next_blob_id := dbg.next_blob_id + 1 } (some s)
      rcases hgb2 : get_blob_row_id
          { dbg with
            blobs := dbg.blobs ++ [{ id := dbg.next_blob_id, blob_hash := s }]
            next_blob_id := dbg.next_blob_id + 1 } (some s) with ⟨bid2, dbg2⟩
      rw [hgb2] at hframe2
      rw [add_blob_hash_miss db dbg s hgb, hgb2] at hok
      simp only [Except.ok.injEq, Prod.mk.injEq] at hok
      rw [← hok.2]
      exact ⟨hframe2.1.trans hframe.1, hframe2.2.trans hframe.2⟩

/-- `add_blob_hash` on a `some` hash never raises. -/
theorem add_blob_hash_some_ok (db : DB) (s : String) :
    ∃ i db', add_blob_hash db (some s) = Except.ok (i, db') := by
  rcases hgb : get_blob_row_id db (some s) with ⟨bid, dbg⟩
  match bid with
  | some j => exact ⟨j, dbg, add_blob_hash_hit db dbg (some s) j hgb⟩
  | none =>
    rcases hgb2 : get_blob_row_id
        { dbg with
          blobs := dbg.blobs ++ [{ id := dbg.next_blob_id, blob_hash := s }]
          next_blob_id := dbg.next_blob_id + 1 } (some s) with ⟨bid2, dbg2⟩
    refine ⟨bid2.getD 0, dbg2, ?_⟩
    rw [add_blob_hash_miss db dbg s hgb, hgb2]

/-- Claim lookup by id commutes with an id-preserving row rewrite. -/
theorem findClaimById_map (l : List ClaimRow) (i : Nat) (f : ClaimRow → ClaimRow)
    (hf : ∀ c, (f c).id = c.id) :
    findClaimById (l.map f) i = (findClaimById l i).map f := by
  rw [findClaimById, findClaimById, List.find?_map]
  have hpred : ((fun c => c.id == i) ∘ f) = (fun c : ClaimRow => c.id == i) := by
    funext c
    simp [Function.comp, hf c]
  rw [hpred]

/-- What `update_claim_status` does on a present claim: it succeeds, touches
only the claims table, and the claim then reads back with the new status. -/
theorem update_claim_status_spec (db : DB) (h st : String) (c0 : ClaimRow)
    (hfind : findClaimByHash db.claims h = some c0) :
    update_claim_status db h st = Except.ok { db with
      claims := setClaimStatusById db.claims c0.id st } ∧
    get_claim_status ({ db with claims := setClaimStatusById db.claims c0.id st } : DB) h =
      some st := by
  have hg : ∀ c : ClaimRow,
      (if c.id == c0.id then { c with status := st } else c).claim_hash =
        c.claim_hash := by
    intro c
    split <;> rfl
  have hgid : ∀ c : ClaimRow,
      (if c.id == c0.id then { c with status := st } else c).id = c.id := by
    intro c
    split <;> rfl
  constructor
  · rw [update_claim_status, get_claim_row_id, hfind, Option.map_some']
  · rw [get_claim_status, get_claim_row_id]
    show (match (findClaimByHash (setClaimStatusById db.claims c0.id st) h).map (·.id) with
      | none => none
      | some row_id => (findClaimById (setClaimStatusById db.claims c0.id st) row_id).map
          (·.status)) = some st
    rw [setClaimStatusById, findClaimByHash_map _ _ _ hg, hfind, Option.map_some',
      Option.map_some']
    show (findClaimById (db.claims.map _)
      ((if c0.id == c0.id then { c0 with status := st } else c0).id)).map (·.status) = some st
    rw [if_pos (by simp)]
    show (findClaimById (db.claims.map _) c0.id).map (·.status) = some st
    rw [findClaimById_map _ _ _ hgid]
    match hfid : findClaimById db.claims c0.id with
    | none =>
      rw [findClaimById] at hfid
      have := List.find?_eq_none.mp hfid c0 (List.mem_of_find?_eq_some hfind)
      simp at this
    | some c1 =>
      have hc1 : (c1.id == c0.id) = true := by
        have := List.find?_some hfid
        simpa using this
      simp only [hfid, Option.map_some']
      rw [if_pos hc1]

/-- The middle phase of `add_metadata_to_claim`: everything between the
initial claim lookup and the final `update_claim_status` call, yielding the
status code and the store it runs on. -/
def add_metadata_mid (db : DB) (claim_hash : String) (md : MetadataPayload) :
    String × DB :=
  let claim_row_id := get_claim_row_id db claim_hash
  let cridv := claim_row_id.getD 0
  match get_sd_hash md with
  | Except.error _ => (CLAIM_STATUS.INVALID_METADATA, db)
  | Except.ok sd_hash =>
    match add_blob_hash db sd_hash with
    | Except.error _ => (CLAIM_STATUS.INVALID_METADATA, db)
    | Except.ok (sd_blob_id, db) =>
      let db : DB := { db with claims := db.claims.map (fun c =>
        if c.id == cridv then { c with sd_blob_id := some sd_blob_id } else c) }
      if db.metadata.any (fun m => m.id == cridv) then
        (CLAIM_STATUS.INVALID_METADATA, db)
      else
        (CLAIM_STATUS.PENDING,
          { db with metadata := db.metadata ++ [{ id := cridv, value := md.value }] })

/-- `add_metadata_to_claim` is the middle phase followed by the final
`update_claim_status` call on its result. -/
theorem add_metadata_to_claim_eq (db : DB) (h : String) (md : MetadataPayload) :
    add_metadata_to_claim db h md =
      match update_claim_status (add_metadata_mid db h md).2 h
          (add_metadata_mid db h md).1 with
      | Except.error e => Except.error e
      | Except.ok db2 => Except.ok ((add_metadata_mid db h md).1, db2) := rfl

/-- Running `add_metadata_to_claim` when the middle phase is known and the
claim is still present in the resulting store. -/
theorem add_metadata_run (db : DB) (h : String) (md : MetadataPayload)
    (st : String) (dbm : DB) (cm : ClaimRow)
    (hmid : add_metadata_mid db h md = (st, dbm))
    (hfind : findClaimByHash dbm.claims h = some cm) :
    add_metadata_to_claim db h md = Except.ok (st,
      { dbm with claims := setClaimStatusById dbm.claims cm.id st }) ∧
    get_claim_status ({ dbm with
      claims := setClaimStatusById dbm.claims cm.id st } : DB) h = some st := by
  have hspec := update_claim_status_spec dbm h st cm hfind
  refine ⟨?_, hspec.2⟩
  rw [add_metadata_to_claim_eq]
  simp only [hmid, hspec.1]

/-- C4: on a known claim, `add_metadata_to_claim` never raises; it sets and
returns a status, and on any extraction or storage failure (payload without
sources, null sd hash, or an existing metadata row) that status is
`INVALID_METADATA` and no metadata row is inserted. -/
theorem attach_metadata_total (db : DB) (h : String) (md : MetadataPayload) (rid : Nat)
    (hknown : get_claim_row_id db h = some rid) :
    ∃ st db', add_metadata_to_claim db h md = Except.ok (st, db') ∧
      get_claim_status db' h = some st ∧
      ((md.has_sources = false ∨ md.lbry_sd_hash = none ∨
          db.metadata.any (fun m => m.id == rid) = true) →
        st = CLAIM_STATUS.INVALID_METADATA ∧ db'.metadata = db.metadata) := by
  have hgd : (get_claim_row_id db h).getD 0 = rid := by rw [hknown]; rfl
  have hmap := hknown
  rw [get_claim_row_id] at hmap
  rcases hfc : findClaimByHash db.claims h with _ | c0
  · rw [hfc] at hmap
    exact Option.noConfusion hmap
  · cases hsrc : md.has_sources with
    | false =>
      have hmid : add_metadata_mid db h md = (CLAIM_STATUS.INVALID_METADATA, db) := by
        simp [add_metadata_mid, get_sd_hash, hsrc]
      obtain ⟨heq, hread⟩ := add_metadata_run db h md _ db c0 hmid hfc
      exact ⟨_, _, heq, hread, fun _ => ⟨rfl, rfl⟩⟩
    | true =>
      rcases hsd : md.lbry_sd_hash with _ | s
      · have hfbnone : findBlobByHash db.blobs none = none := by
          rw [findBlobByHash]
          exact List.find?_eq_none.mpr fun x _ => by simp
        have hgbnone : get_blob_row_id db none = (none, db) := by
          simp only [get_blob_row_id, hfbnone]
        have hab := add_blob_hash_none_miss db db hgbnone
        have hmid : add_metadata_mid db h md = (CLAIM_STATUS.INVALID_METADATA, db) := by
          simp [add_metadata_mid, get_sd_hash, hsrc, hsd, hab]
        obtain ⟨heq, hread⟩ := add_metadata_run db h md _ db c0 hmid hfc
        exact ⟨_, _, heq, hread, fun _ => ⟨rfl, rfl⟩⟩
      · obtain ⟨sdid, db2, hab⟩ := add_blob_hash_some_ok db s
        obtain ⟨hmet2, hcl2⟩ := add_blob_hash_frame db (some s) sdid db2 hab
        have hgsd : get_sd_hash md = Except.ok (some s) := by
          rw [get_sd_hash, hsrc, hsd]
          rfl
        have hfpres : ∀ c : ClaimRow,
            (if c.id == rid then { c with sd_blob_id := some sdid } else c).claim_hash =
              c.claim_hash := fun c => by split <;> rfl
        have hfind3 : findClaimByHash (db2.claims.map (fun c =>
            if c.id == rid then { c with sd_blob_id := some sdid } else c)) h =
            some (if c0.id == rid then { c0 with sd_blob_id := some sdid } else c0) := by
          rw [hcl2, findClaimByHash_map _ _ _ hfpres, hfc, Option.map_some']
        cases hany : db.metadata.any (fun m => m.id == rid) with
        | true =>
          have hcond : db2.metadata.any (fun m => m.id == rid) = true := by
            rw [hmet2]
            exact hany
          have hmid : add_metadata_mid db h md = (CLAIM_STATUS.INVALID_METADATA,
              { db2 with claims := db2.claims.map (fun c =>
                if c.id == rid then { c with sd_blob_id := some sdid } else c) }) := by
            simp only [add_metadata_mid, hgsd, hab, hgd]
            rw [if_pos hcond]
          obtain ⟨heq, hread⟩ := add_metadata_run db h md _ _ _ hmid hfind3
          exact ⟨_, _, heq, hread, fun _ => ⟨rfl, hmet2⟩⟩
        | false =>
          have hcondf : db2.metadata.any (fun m => m.id == rid) = false := by
            rw [hmet2]
            exact hany
          have hmid : add_metadata_mid db h md = (CLAIM_STATUS.PENDING,
              { db2 with
                claims := db2.claims.map (fun c =>
                  if c.id == rid then { c with sd_blob_id := some sdid } else c)
                metadata := db2.metadata ++ [{ id := rid, value := md.value }] }) := by
            simp only [add_metadata_mid, hgsd, hab, hgd]
            rw [if_neg (by simp [hcondf])]
          obtain ⟨heq, hread⟩ := add_metadata_run db h md _ _ _ hmid hfind3
          refine ⟨_, _, heq, hread, fun hbad => ?_⟩
          rcases hbad with h1 | h2 | h3
          · exact Bool.noConfusion h1
          · exact Option.noConfusion h2
          · exact Bool.noConfusion h3

/-- Witness for C4 at a concrete store and a payload without sources. -/
theorem attach_metadata_total_witness :
    get_claim_row_id knownClaimDB knownClaimHash = some 1 ∧
    (∃ st db', add_metadata_to_claim knownClaimDB knownClaimHash
        ⟨false, none, "m"⟩ = Except.ok (st, db') ∧
      get_claim_status db' knownClaimHash = some st ∧
      (((⟨false, none, "m"⟩ : MetadataPayload).has_sources = false ∨
          (⟨false, none, "m"⟩ : MetadataPayload).lbry_sd_hash = none ∨
          knownClaimDB.metadata.any (fun m => m.id == 1) = true) →
        st = CLAIM_STATUS.INVALID_METADATA ∧
          db'.metadata = knownClaimDB.metadata)) :=
  ⟨by decide,
   attach_metadata_total knownClaimDB knownClaimHash ⟨false, none, "m"⟩ 1 (by decide)⟩

/-- C10: on a claim that already has a metadata row, a well-formed payload
still ends in `INVALID_METADATA` (the metadata primary-key conflict), the
stored metadata is unchanged, and the claim reads back `INVALID_METADATA`. -/
theorem attach_metadata_conflict (db : DB) (h : String) (md : MetadataPayload)
    (rid : Nat) (s : String)
    (hknown : get_claim_row_id db h = some rid)
    (hrow : db.metadata.any (fun m => m.id == rid) = true)
    (hsrc : md.has_sources = true) (hsd : md.lbry_sd_hash = some s) :
    ∃ db', add_metadata_to_claim db h md =
        Except.ok (CLAIM_STATUS.INVALID_METADATA, db') ∧
      db'.metadata = db.metadata ∧
      get_claim_status db' h = some CLAIM_STATUS.INVALID_METADATA := by
  have hgd : (get_claim_row_id db h).getD 0 = rid := by rw [hknown]; rfl
  have hmap := hknown
  rw [get_claim_row_id] at hmap
  rcases hfc : findClaimByHash db.claims h with _ | c0
  · rw [hfc] at hmap
    exact Option.noConfusion hmap
  · obtain ⟨sdid, db2, hab⟩ := add_blob_hash_some_ok db s
    obtain ⟨hmet2, hcl2⟩ := add_blob_hash_frame db (some s) sdid db2 hab
    have hgsd : get_sd_hash md = Except.ok (some s) := by
      rw [get_sd_hash, hsrc, hsd]
      rfl
    have hfpres : ∀ c : ClaimRow,
        (if c.id == rid then { c with sd_blob_id := some sdid } else c).claim_hash =
          c.claim_hash := fun c => by split <;> rfl
    have hfind3 : findClaimByHash (db2.claims.map (fun c =>
        if c.id == rid then { c with sd_blob_id := some sdid } else c)) h =
        some (if c0.id == rid then { c0 with sd_blob_id := some sdid } else c0) := by
      rw [hcl2, findClaimByHash_map _ _ _ hfpres, hfc, Option.map_some']
    have hcond : db2.metadata.any (fun m => m.id == rid) = true := by
      rw [hmet2]
      exact hrow
    have hmid : add_metadata_mid db h md = (CLAIM_STATUS.INVALID_METADATA,
        { db2 with claims := db2.claims.map (fun c =>
          if c.id == rid then { c with sd_blob_id := some sdid } else c) }) := by
      simp only [add_metadata_mid, hgsd, hab, hgd]
      rw [if_pos hcond]
    obtain ⟨heq, hread⟩ := add_metadata_run db h md _ _ _ hmid hfind3
    exact ⟨_, heq, hmet2, hread⟩

/-- Store with one claim that already carries a metadata row, for the C10
witness. -/
def metaClaimDB : DB :=
  match add_metadata_to_claim knownClaimDB knownClaimHash ⟨true, some "sd", "v1"⟩ with
  | Except.ok (_, d) => d
  | Except.error _ => emptyDB

/-- Witness for C10 at a concrete store and payload. -/
theorem attach_metadata_conflict_witness :
    (get_claim_row_id metaClaimDB knownClaimHash = some 1 ∧
      metaClaimDB.metadata.any (fun m => m.id == 1) = true ∧
      (⟨true, some "sd", "v2"⟩ : MetadataPayload).has_sources = true ∧
      (⟨true, some "sd", "v2"⟩ : MetadataPayload).lbry_sd_hash = some "sd") ∧
    ∃ db', add_metadata_to_claim metaClaimDB knownClaimHash
        ⟨true, some "sd", "v2"⟩ =
        Except.ok (CLAIM_STATUS.INVALID_METADATA, db') ∧
      db'.metadata = metaClaimDB.metadata ∧
      get_claim_status db' knownClaimHash = some CLAIM_STATUS.INVALID_METADATA :=
  ⟨⟨by decide, by decide, rfl, rfl⟩,
   attach_metadata_conflict metaClaimDB knownClaimHash ⟨true, some "sd", "v2"⟩ 1 "sd"
     (by decide) (by decide) rfl rfl⟩

end LbryStorage
